import Mathlib

/-!
Verification of the gorm sharding middleware (`sharding.go`, `conn_pool.go`,
`primary_key.go`) against its natural-language specification.

The embedding mirrors the Go source:
* `Value` models the dynamic `any` values passed as positional arguments and
  extracted from literals.
* `SqlExpr` / `Stmt` model the parts of the `sqlparser` AST the resolver
  inspects (the parser itself is an external collaborator; a parse result is an
  input of `resolve`).
* `resolve`, `insertValue`, `nonInsertValue`, `getSuffix` are translated from
  `Sharding.resolve`, `Sharding.insertValue`, `Sharding.nonInsertValue` and
  `getSuffix` in `sharding.go`.
* `execContext`, `queryContext`, `queryRowContext` model the interceptors from
  `conn_pool.go`, recording which calls reach an underlying connection.
* Go slice indexing of the caller-supplied argument list is modelled by
  `getArg`, whose out-of-bounds outcome is the distinguished `Fail.panicked`
  (a runtime panic in Go).
-/

deriving instance DecidableEq for Except

namespace GormSharding

/-- A dynamic Go value (`any`/`interface{}`): the shapes the resolver
distinguishes are `int`, `int64`, `string`, the nil interface and anything
else. -/
inductive Value where
  | vInt (n : Int)
  | vInt64 (n : Int)
  | vStr (s : String)
  | vNil
  | vOther
deriving DecidableEq, Repr

/-- Binary operators of `sqlparser.BinaryExpr`; the resolver only reacts to
`EQ`. -/
inductive BinOp where
  | eq
  | ne
  | lt
  | gt
  | otherOp
deriving DecidableEq, Repr

/-- The expression shapes of the `sqlparser` AST that `insertValue` and
`nonInsertValue` inspect: identifiers, bind parameters, string and number
literals, binary expressions, parenthesised expressions, and an opaque
constructor for every other node kind. -/
inductive SqlExpr where
  | ident (name : String)
  | bindExpr (pos : Nat)
  | stringLit (v : String)
  | numberLit (v : String)
  | binary (x : SqlExpr) (op : BinOp) (y : SqlExpr)
  | paren (x : SqlExpr)
  | otherExpr
deriving DecidableEq, Repr

/-- An `ORDER BY` term: either a `QualifiedRef` (`table.column`) or any other
expression (`replaceOrderByTableName` only rewrites the former). -/
inductive OrderTerm where
  | qualified (table : String) (col : String)
  | plain (e : SqlExpr)
deriving DecidableEq, Repr

/-- `sqlparser.SelectStatement`, restricted to the fields `resolve` reads:
`FromItems` (`some name` when it is a plain `TableName`), the statement hint,
the `WHERE` condition and the `ORDER BY` terms. -/
structure SelectStmt where
  fromTable : Option String
  hint : Option String
  condition : Option SqlExpr
  orderBy : List OrderTerm
deriving DecidableEq, Repr

/-- `sqlparser.InsertStatement`: table name, column names, and one expression
list per value row. -/
structure InsertStmt where
  tableName : String
  columnNames : List String
  expressions : List (List SqlExpr)
deriving DecidableEq, Repr

/-- `sqlparser.UpdateStatement` restricted to what `resolve` reads (the
assignment list is carried along untouched). -/
structure UpdateStmt where
  tableName : String
  assignments : List (String × SqlExpr)
  condition : Option SqlExpr
deriving DecidableEq, Repr

/-- `sqlparser.DeleteStatement` restricted to what `resolve` reads. -/
structure DeleteStmt where
  tableName : String
  condition : Option SqlExpr
deriving DecidableEq, Repr

/-- The statement kinds distinguished by the type switch in
`Sharding.resolve`; every other parsed statement falls into `other`. -/
inductive Stmt where
  | select (s : SelectStmt)
  | insert (i : InsertStmt)
  | update (u : UpdateStmt)
  | delete (d : DeleteStmt)
  | other
deriving DecidableEq, Repr

/-- The error values produced on the resolution path (`ErrMissingShardingKey`,
`ErrInvalidID`, `ErrInsertDiffSuffix`, `sqlparser.ErrNotImplemented`, the
ad-hoc `errors.New`/`fmt.Errorf` errors, and errors returned by a user
supplied sharding algorithm). -/
inductive Err where
  | missingShardingKey
  | invalidID
  | insertDiffSuffix
  | notImplemented
  | idShouldBeInt64
  | idParseIntError
  | suffixNotInShardingSuffixs (word : String)
  | algError (msg : String)
  | noShardingAlgorithmByPrimaryKey
  | columnsExprsMismatch
deriving DecidableEq, Repr

/-- Abnormal termination of a resolution step: either a Go runtime panic
(out-of-bounds argument access / nil dereference) or an `error` return. -/
inductive Fail where
  | panicked
  | failed (e : Err)
deriving DecidableEq, Repr

/-- `args[pos]` on the caller-supplied argument slice: Go panics when the
index is out of bounds. -/
def getArg (args : List Value) (pos : Nat) : Except Fail Value :=
  match args.get? pos with
  | some v => Except.ok v
  | none => Except.error Fail.panicked

/-- The post-compilation sharding configuration of one table
(`sharding.Config` after `Sharding.compile` has filled the defaults).
Functions are total Lean functions; a user algorithm's `error` return is its
message. `shardingSuffixs` is the value of the `ShardingSuffixs` function. -/
structure Config where
  doubleWrite : Bool
  shardingKey : String
  numberOfShards : Nat
  shardingAlgorithm : Value → Except String String
  shardingSuffixs : List String
  shardingAlgorithmByPrimaryKey : Option (Int → String)
  primaryKeyGeneratorFn : Int → Int

/-- The registry: logical table name to compiled config. -/
abbrev Configs := List (String × Config)

/-! ### Go standard-library helpers used by the default algorithm -/

/-- Decimal digit list to number (caller has checked all are digits). -/
def digitsVal (ds : List Char) : Nat :=
  ds.foldl (fun a c => a * 10 + (c.toNat - 48)) 0

/-- `strconv.ParseInt(s, 10, 64)` / `strconv.Atoi` on a 64-bit platform:
optional sign, at least one decimal digit, nothing else, and the value must
fit in `int64` (on overflow Go reports `ErrRange`, which the callers treat as
failure). -/
def goParseInt64 (s : String) : Option Int :=
  let cs := s.data
  let signed : Bool × List Char :=
    match cs with
    | '-' :: rest => (true, rest)
    | '+' :: rest => (false, rest)
    | _ => (false, cs)
  let ds := signed.2
  if ds.isEmpty then none
  else if ds.all (fun c => c.isDigit) then
    let v : Int := if signed.1 then -(digitsVal ds : Int) else (digitsVal ds : Int)
    if -(2 ^ 63) ≤ v ∧ v ≤ 2 ^ 63 - 1 then some v else none
  else none

/-- `strconv.Atoi` (Go `int` is 64-bit here). -/
def goAtoi (s : String) : Option Int := goParseInt64 s

/-- One bit step of CRC-32 (IEEE polynomial, reflected). -/
def crc32Bit (crc : Nat) : Nat :=
  if crc % 2 = 1 then (crc / 2) ^^^ 0xEDB88320 else crc / 2

/-- One byte step of `hash/crc32` with the IEEE table. -/
def crc32Byte (crc b : Nat) : Nat :=
  (crc32Bit ∘ crc32Bit ∘ crc32Bit ∘ crc32Bit ∘ crc32Bit ∘ crc32Bit ∘ crc32Bit ∘ crc32Bit)
    ((crc ^^^ b) % 2 ^ 32)

/-- `crc32.ChecksumIEEE` over the UTF-8 bytes of a string. -/
def crc32ChecksumIEEE (s : String) : Nat :=
  (s.toUTF8.toList.foldl (fun crc b => crc32Byte crc b.toNat) 0xFFFFFFFF) ^^^ 0xFFFFFFFF

/-- Left-pad a numeral with zeros to the given total width
(`fmt.Sprintf("%0Nd", ...)` pads the digits after the sign). -/
def zeroPad (w : Nat) (s : String) : String :=
  if w ≤ s.length then s else String.mk (List.replicate (w - s.length) '0') ++ s

/-- `fmt.Sprintf("%0Nd", n)` for an integer `n`: the minimum width includes
the sign. -/
def goSprintfPadInt (w : Nat) (n : Int) : String :=
  if n < 0 then "-" ++ zeroPad (w - 1) (toString n.natAbs)
  else zeroPad w (toString n.natAbs)

/-- The suffix width chosen by `Sharding.compile` from `NumberOfShards`
(`_%01d` … `_%04d`); for 10000 shards or more the format string is left
empty. -/
def tableFormatWidth (shards : Nat) : Option Nat :=
  if shards < 10 then some 1
  else if shards < 100 then some 2
  else if shards < 1000 then some 3
  else if shards < 10000 then some 4
  else none

/-- `fmt.Sprintf(c.tableFormat, m)`: the `_%0Nd` format, or Go's
`%!(EXTRA int=m)` noise when the format string stayed empty. -/
def applyTableFormat (width : Option Nat) (m : Int) : String :=
  match width with
  | some w => "_" ++ goSprintfPadInt w m
  | none => "%!(EXTRA int=" ++ toString m ++ ")"

/-- The default `ShardingAlgorithm` installed by `Sharding.compile` when the
user supplies none: integers are used directly, strings are parsed with
`strconv.Atoi` falling back to `crc32.ChecksumIEEE`, anything else is an
error; the suffix is `value mod NumberOfShards` rendered through the table
format. Go's `%` truncates toward zero (`Int.tmod`). -/
def defaultShardingAlgorithm (shards : Nat) (v : Value) : Except String String :=
  match v with
  | Value.vInt n =>
      Except.ok (applyTableFormat (tableFormatWidth shards) (Int.tmod n shards))
  | Value.vInt64 n =>
      Except.ok (applyTableFormat (tableFormatWidth shards) (Int.tmod n shards))
  | Value.vStr s =>
      let m : Int :=
        match goAtoi s with
        | some n => n
        | none => (crc32ChecksumIEEE s : Int)
      Except.ok (applyTableFormat (tableFormatWidth shards) (Int.tmod m shards))
  | _ =>
      Except.error "default algorithm only support integer and string column,if you use other type, specify you own ShardingAlgorithm"

/-- Result of an `Except String` computation, with `""` for the error case
(used by the default `ShardingSuffixs`, which aborts on any error). -/
def okString (e : Except String String) : String :=
  match e with
  | Except.ok s => s
  | Except.error _ => ""

/-- The default `ShardingSuffixs` installed by `Sharding.compile`: indices
`0 .. NumberOfShards-1` pushed through the sharding algorithm (which never
fails on integers). -/
def defaultShardingSuffixs (shards : Nat) : List String :=
  (List.range shards).map (fun i => okString (defaultShardingAlgorithm shards (Value.vInt i)))

/-- A compiled configuration with the default algorithm and suffix
enumeration, a caller-chosen primary-key generator function, and no
primary-key sharding algorithm (the non-Snowflake default). -/
def mkDefaultConfig (key : String) (shards : Nat) (dw : Bool) (pk : Int → Int) : Config :=
  { doubleWrite := dw
    shardingKey := key
    numberOfShards := shards
    shardingAlgorithm := defaultShardingAlgorithm shards
    shardingSuffixs := defaultShardingSuffixs shards
    shardingAlgorithmByPrimaryKey := none
    primaryKeyGeneratorFn := pk }

/-! ### The resolver (`Sharding.resolve` and its helpers) -/

/-- The state accumulated by the `sqlparser.Walk` visitor inside
`Sharding.nonInsertValue`: `value` starts as the nil interface, `id` as `0`,
`keyFind` as `false`. -/
structure WalkState where
  value : Value
  id : Int
  keyFind : Bool
deriving DecidableEq, Repr

/-- The initial visitor state. -/
def initWalkState : WalkState := ⟨Value.vNil, 0, false⟩

/-- The visitor body of `Sharding.nonInsertValue`: it reacts only to a
`BinaryExpr` whose left side is an identifier; an `=` on the sharding key
records the right-hand value (bind argument, string literal or number
literal — anything else is `sqlparser.ErrNotImplemented`); otherwise an `=`
on `id` records the argument (which must be an `int64`) or the parsed number
literal (`ErrInvalidID` for any other shape). -/
def visitNode (key : String) (args : List Value) (st : WalkState) :
    SqlExpr → Except Fail WalkState
  | SqlExpr.binary (SqlExpr.ident x) op y =>
    if x = key ∧ op = BinOp.eq then
      match y with
      | SqlExpr.bindExpr pos =>
        match getArg args pos with
        | Except.ok v => Except.ok { st with value := v, keyFind := true }
        | Except.error f => Except.error f
      | SqlExpr.stringLit s => Except.ok { st with value := Value.vStr s, keyFind := true }
      | SqlExpr.numberLit s => Except.ok { st with value := Value.vStr s, keyFind := true }
      | _ => Except.error (Fail.failed Err.notImplemented)
    else if x = "id" ∧ op = BinOp.eq then
      match y with
      | SqlExpr.bindExpr pos =>
        match getArg args pos with
        | Except.ok (Value.vInt64 n) => Except.ok { st with id := n }
        | Except.ok _ => Except.error (Fail.failed Err.idShouldBeInt64)
        | Except.error f => Except.error f
      | SqlExpr.numberLit s =>
        match goParseInt64 s with
        | some n => Except.ok { st with id := n }
        | none => Except.error (Fail.failed Err.idParseIntError)
      | _ => Except.error (Fail.failed Err.invalidID)
    else Except.ok st
  | _ => Except.ok st

/-- `sqlparser.Walk` with the visitor above: pre-order traversal, aborting on
the first visitor error. -/
def walkExpr (key : String) (args : List Value) (e : SqlExpr) (st : WalkState) :
    Except Fail WalkState :=
  match e with
  | SqlExpr.binary x op y =>
    match visitNode key args st (SqlExpr.binary x op y) with
    | Except.error f => Except.error f
    | Except.ok st1 =>
      match walkExpr key args x st1 with
      | Except.error f => Except.error f
      | Except.ok st2 => walkExpr key args y st2
  | SqlExpr.paren x =>
    match visitNode key args st (SqlExpr.paren x) with
    | Except.error f => Except.error f
    | Except.ok st1 => walkExpr key args x st1
  | e' => visitNode key args st e'

/-- The walk over an optional condition (a `nil` condition visits nothing). -/
def walkCond (key : String) (args : List Value) (cond : Option SqlExpr) :
    Except Fail WalkState :=
  match cond with
  | none => Except.ok initWalkState
  | some c => walkExpr key args c initWalkState

/-- `Sharding.nonInsertValue`: walk the condition, then fail with
`ErrMissingShardingKey` when no sharding-key equality was found and the
accumulated id is `0`. -/
def nonInsertValue (key : String) (cond : Option SqlExpr) (args : List Value) :
    Except Fail (Value × Int × Bool) :=
  match walkCond key args cond with
  | Except.error f => Except.error f
  | Except.ok st =>
    if st.keyFind = false ∧ st.id = 0 then Except.error (Fail.failed Err.missingShardingKey)
    else Except.ok (st.value, st.id, st.keyFind)

/-- Whether a column list mentions a name (the Go loops compare `name.Name`
against the key with `==` and break at the first hit). -/
def containsStr : List String → String → Bool
  | [], _ => false
  | n :: ns, key => if n = key then true else containsStr ns key

/-- First expression paired with the given column name (the Go loop breaks at
the first match). -/
def findKeyExpr (key : String) : List (String × SqlExpr) → Option SqlExpr
  | [] => none
  | (n, e) :: rest => if n = key then some e else findKeyExpr key rest

/-- `Sharding.insertValue`: reject mismatched column/value list lengths, find
the sharding-key column, and extract its value from a bind argument, string
literal or number literal (anything else is `sqlparser.ErrNotImplemented`);
absence of the column is `ErrMissingShardingKey`. -/
def insertValue (key : String) (names : List String) (exprs : List SqlExpr)
    (args : List Value) : Except Fail (Value × Int × Bool) :=
  if names.length ≠ exprs.length then Except.error (Fail.failed Err.columnsExprsMismatch)
  else
    match findKeyExpr key (names.zip exprs) with
    | none => Except.error (Fail.failed Err.missingShardingKey)
    | some (SqlExpr.bindExpr pos) =>
      match getArg args pos with
      | Except.ok v => Except.ok (v, 0, true)
      | Except.error f => Except.error f
    | some (SqlExpr.stringLit s) => Except.ok (Value.vStr s, 0, true)
    | some (SqlExpr.numberLit s) => Except.ok (Value.vStr s, 0, true)
    | some _ => Except.error (Fail.failed Err.notImplemented)

/-- `getSuffix` from `sharding.go`: the sharding algorithm when the key was
found, otherwise `ShardingAlgorithmByPrimaryKey` on the id (an error when
that function is not configured). -/
def getSuffix (v : Value) (id : Int) (keyFind : Bool) (r : Config) :
    Except Fail String :=
  if keyFind then
    match r.shardingAlgorithm v with
    | Except.ok s => Except.ok s
    | Except.error msg => Except.error (Fail.failed (Err.algError msg))
  else
    match r.shardingAlgorithmByPrimaryKey with
    | none => Except.error (Fail.failed Err.noShardingAlgorithmByPrimaryKey)
    | some f => Except.ok (f id)

/-- `strings.Replace(s, "_", "", 1)` on the character list. -/
def removeFirstUnderscoreAux : List Char → List Char
  | [] => []
  | c :: cs => if c = '_' then cs else c :: removeFirstUnderscoreAux cs

/-- `strings.Replace(suffix, "_", "", 1)`. -/
def removeFirstUnderscore (s : String) : String :=
  String.mk (removeFirstUnderscoreAux s.data)

/-- `slices.Index` over the suffix list (position of the first match). -/
def listIndexOfAux (s : String) : List String → Nat → Option Nat
  | [], _ => none
  | x :: xs, k => if x = s then some k else listIndexOfAux s xs (k + 1)

/-- `slices.Index(r.ShardingSuffixs(), word)` as an optional index. -/
def listIndexOf (l : List String) (s : String) : Option Nat :=
  listIndexOfAux s l 0

/-- The table index a suffix denotes, as computed on the insert path of
`Sharding.resolve`: strip the first underscore, `strconv.Atoi` the rest, and
otherwise locate the stripped word in `ShardingSuffixs()`. -/
def tblIdxOf (r : Config) (suffix : String) : Option Int :=
  match goAtoi (removeFirstUnderscore suffix) with
  | some n => some n
  | none =>
    match listIndexOf r.shardingSuffixs (removeFirstUnderscore suffix) with
    | some j => some (j : Int)
    | none => none

/-- The suffix computed for one insert value row (`insertValue` followed by
`getSuffix`), exactly as one iteration of the insert loop computes it. -/
def rowSuffix (r : Config) (names : List String) (args : List Value)
    (row : List SqlExpr) : Except Fail String :=
  match insertValue r.shardingKey names row args with
  | Except.error f => Except.error f
  | Except.ok (v, id, kf) => getSuffix v id kf r

/-- One pass of the `for _, insertExpression := range insertExpressions` loop
in `Sharding.resolve`, over the remaining rows. Arguments thread the Go
mutable state: `prev` is the suffix of the previous row (initially `""`),
`cols` the current `insertStmt.ColumnNames`, `calls` the shard indices passed
to `PrimaryKeyGeneratorFn` so far. It returns the final suffix, final column
list, the (possibly id-extended) rows, and the generator call log. The
generator is invoked for every row — before the `fillID` decision — exactly
as in the source. -/
def insertLoop (r : Config) (origNames : List String) (args : List Value) :
    List (List SqlExpr) → String → List String → List Int →
    Except Fail (String × List String × List (List SqlExpr) × List Int)
  | [], prev, cols, calls => Except.ok (prev, cols, [], calls)
  | row :: rest, prev, cols, calls =>
    match insertValue r.shardingKey origNames row args with
    | Except.error f => Except.error f
    | Except.ok (v, id, kf) =>
      match getSuffix v id kf r with
      | Except.error f => Except.error f
      | Except.ok sub =>
        if prev ≠ "" ∧ prev ≠ sub then Except.error (Fail.failed Err.insertDiffSuffix)
        else
          match tblIdxOf r sub with
          | none =>
            Except.error (Fail.failed (Err.suffixNotInShardingSuffixs (removeFirstUnderscore sub)))
          | some tblIdx =>
            let pk := r.primaryKeyGeneratorFn tblIdx
            let fill := containsStr origNames "id" = false ∧ pk ≠ 0
            let cols' := if fill then origNames ++ ["id"] else cols
            let row' := if fill then row ++ [SqlExpr.numberLit (toString pk)] else row
            match insertLoop r origNames args rest sub cols' (calls ++ [tblIdx]) with
            | Except.error f => Except.error f
            | Except.ok (sfx, colsF, restF, callsF) =>
              Except.ok (sfx, colsF, row' :: restF, callsF)

/-- A query rendering handed back by the resolver: `original` is the input
text returned byte-identical (the pass-through branches of
`Sharding.resolve`), the other constructors are `stmt.String()` of the final
AST. -/
inductive QueryOut where
  | original
  | selectQ (s : SelectStmt)
  | insertQ (i : InsertStmt)
  | updateQ (u : UpdateStmt)
  | deleteQ (d : DeleteStmt)
deriving DecidableEq, Repr

/-- `replaceOrderByTableName` from `sharding.go`: rewrite qualified
references from the old table name to the new one. -/
def replaceOrderByTableName (ts : List OrderTerm) (oldName newName : String) :
    List OrderTerm :=
  ts.map (fun t =>
    match t with
    | OrderTerm.qualified tbl c =>
      if tbl = oldName then OrderTerm.qualified newName c else OrderTerm.qualified tbl c
    | t' => t')

/-- The outcome of `Sharding.resolve`: the two renderings, the logical table
name, and (on success) the log of `PrimaryKeyGeneratorFn` invocations. On any
Go `error` return the named results still hold the unmodified input text, so
`fail` carries the renderings too. -/
inductive RRes where
  | ok (ft st : QueryOut) (table : String) (pkCalls : List Int)
  | fail (ft st : QueryOut) (table : String) (e : Err)
  | panicked
deriving Repr

/-- Convert a helper result into a resolver outcome for a statement whose
table name is already known; all error returns in the source leave
`ftQuery`/`stQuery` at the original input text. -/
def wrapFail (tn : String) :
    Except Fail (QueryOut × QueryOut × String × List Int) → RRes
  | Except.ok (a, b, c, d) => RRes.ok a b c d
  | Except.error Fail.panicked => RRes.panicked
  | Except.error (Fail.failed e) => RRes.fail QueryOut.original QueryOut.original tn e

/-- The select branch of `Sharding.resolve` once the table is registered:
find the value, compute the suffix, render the logical-table query from the
unmodified statement and the shard query with the replaced `FROM` table and
rewritten `ORDER BY`. -/
def selectResolve (r : Config) (tn : String) (s : SelectStmt) (args : List Value) :
    Except Fail (QueryOut × QueryOut × String × List Int) :=
  match nonInsertValue r.shardingKey s.condition args with
  | Except.error f => Except.error f
  | Except.ok (v, id, kf) =>
    match getSuffix v id kf r with
    | Except.error f => Except.error f
    | Except.ok suffix =>
      Except.ok
        (QueryOut.selectQ s,
         QueryOut.selectQ
           { s with
             fromTable := some (tn ++ suffix)
             orderBy := replaceOrderByTableName s.orderBy tn (tn ++ suffix) },
         tn, [])

/-- The update branch of `Sharding.resolve` for a registered table. -/
def updateResolve (r : Config) (u : UpdateStmt) (args : List Value) :
    Except Fail (QueryOut × QueryOut × String × List Int) :=
  match nonInsertValue r.shardingKey u.condition args with
  | Except.error f => Except.error f
  | Except.ok (v, id, kf) =>
    match getSuffix v id kf r with
    | Except.error f => Except.error f
    | Except.ok suffix =>
      Except.ok
        (QueryOut.updateQ u,
         QueryOut.updateQ { u with tableName := u.tableName ++ suffix },
         u.tableName, [])

/-- The delete branch of `Sharding.resolve` for a registered table. -/
def deleteResolve (r : Config) (d : DeleteStmt) (args : List Value) :
    Except Fail (QueryOut × QueryOut × String × List Int) :=
  match nonInsertValue r.shardingKey d.condition args with
  | Except.error f => Except.error f
  | Except.ok (v, id, kf) =>
    match getSuffix v id kf r with
    | Except.error f => Except.error f
    | Except.ok suffix =>
      Except.ok
        (QueryOut.deleteQ d,
         QueryOut.deleteQ { d with tableName := d.tableName ++ suffix },
         d.tableName, [])

/-- The insert branch of `Sharding.resolve` for a registered table: run the
per-row loop; the logical rendering keeps the original table name, the shard
rendering appends the suffix of the last processed row. An empty `VALUES`
list leaves `newTable` nil in the source and `String()` would dereference it
(a panic); the parser never produces it. -/
def insertResolve (r : Config) (i : InsertStmt) (args : List Value) :
    Except Fail (QueryOut × QueryOut × String × List Int) :=
  match i.expressions with
  | [] => Except.error Fail.panicked
  | row :: rest =>
    match insertLoop r i.columnNames args (row :: rest) "" i.columnNames [] with
    | Except.error f => Except.error f
    | Except.ok (suffix, cols, rows', calls) =>
      Except.ok
        (QueryOut.insertQ ⟨i.tableName, cols, rows'⟩,
         QueryOut.insertQ ⟨i.tableName ++ suffix, cols, rows'⟩,
         i.tableName, calls)

/-- `Sharding.resolve`. The raw query text and the external parser are
abstracted: `parsed` is the parser's outcome on the input text (`none` for a
parse failure, which is a non-error pass-through). Every pass-through branch
returns the input byte-identical (`QueryOut.original`). -/
def resolve (configs : Configs) (parsed : Option Stmt) (args : List Value) : RRes :=
  if configs.isEmpty then RRes.ok QueryOut.original QueryOut.original "" []
  else
    match parsed with
    | none => RRes.ok QueryOut.original QueryOut.original "" []
    | some Stmt.other =>
      RRes.fail QueryOut.original QueryOut.original "" Err.notImplemented
    | some (Stmt.select s) =>
      match s.fromTable with
      | none => RRes.ok QueryOut.original QueryOut.original "" []
      | some tn =>
        if s.hint = some "nosharding" then
          RRes.ok QueryOut.original QueryOut.original "" []
        else
          match configs.lookup tn with
          | none => RRes.ok QueryOut.original QueryOut.original tn []
          | some r => wrapFail tn (selectResolve r tn s args)
    | some (Stmt.insert i) =>
      match configs.lookup i.tableName with
      | none => RRes.ok QueryOut.original QueryOut.original i.tableName []
      | some r => wrapFail i.tableName (insertResolve r i args)
    | some (Stmt.update u) =>
      match configs.lookup u.tableName with
      | none => RRes.ok QueryOut.original QueryOut.original u.tableName []
      | some r => wrapFail u.tableName (updateResolve r u args)
    | some (Stmt.delete d) =>
      match configs.lookup d.tableName with
      | none => RRes.ok QueryOut.original QueryOut.original d.tableName []
      | some r => wrapFail d.tableName (deleteResolve r d args)

/-- The logical table a statement references (`nil` for statements outside
the four-kind switch, and for a select whose `FromItems` is not a plain
table name). -/
def stmtTable : Stmt → Option String
  | Stmt.select s => s.fromTable
  | Stmt.insert i => some i.tableName
  | Stmt.update u => some u.tableName
  | Stmt.delete d => some d.tableName
  | Stmt.other => none

/-! ### The connection router (`conn_pool.go`) -/

/-- A call that reaches an underlying connection: the double-write exec
against the default pool, or the main exec/query/query-row against the
connection chosen by `GetReadWriteConn`. -/
inductive RouterCall where
  | execOnDefault (q : QueryOut)
  | execOnChosen (q : QueryOut)
  | queryOnChosen (q : QueryOut)
  | queryRowOnChosen (q : QueryOut)
deriving DecidableEq, Repr

/-- Outcome of an intercepted call: the datastore calls issued, and the error
returned to the caller if any. -/
inductive RouterResult where
  | ok (calls : List RouterCall)
  | err (e : Err) (calls : List RouterCall)
  | panicked
deriving Repr

/-- The double-write exec issued by `ExecContext`/`QueryContext` when the
resolved table is registered with `DoubleWrite`. -/
def doubleWriteCalls (configs : Configs) (table : String) (ft : QueryOut) :
    List RouterCall :=
  if table = "" then []
  else
    match configs.lookup table with
    | some r => if r.doubleWrite then [RouterCall.execOnDefault ft] else []
    | none => []

/-- `ConnPool.ExecContext`: resolve; on error return it with nothing
executed; otherwise double-write the logical rendering when configured, then
execute the shard rendering on the chosen connection. -/
def execContext (configs : Configs) (parsed : Option Stmt) (args : List Value) :
    RouterResult :=
  match resolve configs parsed args with
  | RRes.panicked => RouterResult.panicked
  | RRes.fail _ _ _ e => RouterResult.err e []
  | RRes.ok ft st table _ =>
    RouterResult.ok (doubleWriteCalls configs table ft ++ [RouterCall.execOnChosen st])

/-- `ConnPool.QueryContext`: same shape as `ExecContext` with a query against
the chosen connection. -/
def queryContext (configs : Configs) (parsed : Option Stmt) (args : List Value) :
    RouterResult :=
  match resolve configs parsed args with
  | RRes.panicked => RouterResult.panicked
  | RRes.fail _ _ _ e => RouterResult.err e []
  | RRes.ok ft st table _ =>
    RouterResult.ok (doubleWriteCalls configs table ft ++ [RouterCall.queryOnChosen st])

/-- `ConnPool.QueryRowContext`: the resolver's error result is discarded
(`_, query, table, stmtType, _ := pool.sharding.resolve(...)`) and the shard
rendering — the unmodified input on an error — is executed regardless. -/
def queryRowContext (configs : Configs) (parsed : Option Stmt) (args : List Value) :
    RouterResult :=
  match resolve configs parsed args with
  | RRes.panicked => RouterResult.panicked
  | RRes.fail _ st _ _ => RouterResult.ok [RouterCall.queryRowOnChosen st]
  | RRes.ok _ st _ _ => RouterResult.ok [RouterCall.queryRowOnChosen st]

/-! ### Syntactic predicates over the condition tree

These characterise, purely on the AST, what the walk visitor reacts to; they
are used to state the claims about `nonInsertValue`. -/

/-- Whether one node is an `=` comparison whose left side is the given
column identifier (the only node shape the visitor reacts to). -/
def nodeIsEqOn (col : String) : SqlExpr → Bool
  | SqlExpr.binary (SqlExpr.ident n) op _ => decide (n = col ∧ op = BinOp.eq)
  | _ => false

/-- Whether the tree contains an `=` comparison on the given column at any
node visited by the walk. -/
def hasEqOn (col : String) : SqlExpr → Bool
  | SqlExpr.binary x op y =>
    nodeIsEqOn col (SqlExpr.binary x op y) || hasEqOn col x || hasEqOn col y
  | SqlExpr.paren x => hasEqOn col x
  | e => nodeIsEqOn col e

/-- `hasEqOn` over an optional condition. -/
def hasCondEqOn (col : String) (cond : Option SqlExpr) : Bool :=
  match cond with
  | none => false
  | some c => hasEqOn col c

/-- One node keeps the visitor state at its zero initial value: it is not an
equality on the sharding key, and if it is an equality on `id` its value is
the literal `0` or a bind argument equal to `int64 0`. -/
def zeroIdOnlyNode (key : String) (args : List Value) : SqlExpr → Bool
  | SqlExpr.binary (SqlExpr.ident n) BinOp.eq y =>
    if n = key then false
    else if n = "id" then
      match y with
      | SqlExpr.numberLit s => decide (s = "0")
      | SqlExpr.bindExpr p => decide (args.get? p = some (Value.vInt64 0))
      | _ => false
    else true
  | _ => true

/-- Every visited node keeps the visitor state at its zero initial value. -/
def zeroIdOnly (key : String) (args : List Value) : SqlExpr → Bool
  | SqlExpr.binary x op y =>
    zeroIdOnlyNode key args (SqlExpr.binary x op y) && zeroIdOnly key args x
      && zeroIdOnly key args y
  | SqlExpr.paren x => zeroIdOnly key args x
  | e => zeroIdOnlyNode key args e

/-- One node's argument access is in bounds: when the sharding key or `id`
is equated with a bind parameter, its position is below the argument count. -/
def nodeBindOK (key : String) (nargs : Nat) : SqlExpr → Bool
  | SqlExpr.binary (SqlExpr.ident n) BinOp.eq (SqlExpr.bindExpr p) =>
    if n = key ∨ n = "id" then decide (p < nargs) else true
  | _ => true

/-- Every sharding-key or `id` bind position in the tree is in bounds. -/
def allBindsOK (key : String) (nargs : Nat) : SqlExpr → Bool
  | SqlExpr.binary x op y =>
    nodeBindOK key nargs (SqlExpr.binary x op y) && allBindsOK key nargs x
      && allBindsOK key nargs y
  | SqlExpr.paren x => allBindsOK key nargs x
  | e => nodeBindOK key nargs e

/-- `allBindsOK` over an optional condition. -/
def condBindsOK (key : String) (nargs : Nat) : Option SqlExpr → Bool
  | none => true
  | some c => allBindsOK key nargs c

/-- For one insert row: if the sharding-key column's expression is a bind
parameter, its position is in bounds (only that expression is indexed). -/
def rowBindOK (key : String) (nargs : Nat) (names : List String)
    (row : List SqlExpr) : Bool :=
  match findKeyExpr key (names.zip row) with
  | some (SqlExpr.bindExpr p) => decide (p < nargs)
  | _ => true

/-- Whenever the statement binds the sharding-key or `id` column to a
positional parameter, that position is below the argument count. -/
def stmtBindsOK (key : String) (nargs : Nat) : Stmt → Bool
  | Stmt.select s => condBindsOK key nargs s.condition
  | Stmt.update u => condBindsOK key nargs u.condition
  | Stmt.delete d => condBindsOK key nargs d.condition
  | Stmt.insert i => i.expressions.all (fun row => rowBindOK key nargs i.columnNames row)
  | Stmt.other => true

/-- Whether an expression is a bind parameter or a number literal (the two
shapes of an id value that do not hit the `ErrInvalidID` default branch). -/
def isBindOrNumber : SqlExpr → Bool
  | SqlExpr.bindExpr _ => true
  | SqlExpr.numberLit _ => true
  | _ => false

/-- The statement fails resolution with the given error (the renderings and
table name of the error return are existential). -/
def failsWith (res : RRes) (e : Err) : Prop :=
  ∃ ft st tn, res = RRes.fail ft st tn e

/-! ### Concrete instances used in the counterexamples and witnesses -/

/-- A primary-key generator that declines to fill (always `0`). -/
def pkZero : Int → Int := fun _ => 0

/-- A primary-key generator returning a nonzero id derived from the index. -/
def pkShift : Int → Int := fun i => 100 + i

/-- 4-shard default config on `user_id`, generator declines. -/
def cfgOrders : Config := mkDefaultConfig "user_id" 4 false pkZero

/-- 4-shard default config on `user_id`, generator fills. -/
def cfgOrdersPk : Config := mkDefaultConfig "user_id" 4 false pkShift

/-- Registry with the `orders` table under `cfgOrders`. -/
def configsA : Configs := [("orders", cfgOrders)]

/-- Registry with the `orders` table under `cfgOrdersPk`. -/
def configsB : Configs := [("orders", cfgOrdersPk)]

/-- A custom sharding algorithm that yields the empty suffix except for the
value `"1"`; its suffix list holds the stripped empty suffix. -/
def cfgEmptySuffix : Config :=
  { doubleWrite := false
    shardingKey := "user_id"
    numberOfShards := 4
    shardingAlgorithm := fun v =>
      match v with
      | Value.vStr "1" => Except.ok "_1"
      | _ => Except.ok ""
    shardingSuffixs := [""]
    shardingAlgorithmByPrimaryKey := none
    primaryKeyGeneratorFn := pkZero }

/-- Registry with the `orders` table under `cfgEmptySuffix`. -/
def configsC : Configs := [("orders", cfgEmptySuffix)]

/-- `SELECT * FROM orders` — no condition, so no sharding key. -/
def stmtSelNoCond : Stmt := Stmt.select ⟨some "orders", none, none, []⟩

/-- The condition `id = 0`. -/
def condIdZero : SqlExpr :=
  SqlExpr.binary (SqlExpr.ident "id") BinOp.eq (SqlExpr.numberLit "0")

/-- `DELETE FROM orders WHERE id = 0`. -/
def stmtDelIdZero : Stmt := Stmt.delete ⟨"orders", some condIdZero⟩

/-- The condition `id = ?` binding position 0. -/
def condIdBind : SqlExpr :=
  SqlExpr.binary (SqlExpr.ident "id") BinOp.eq (SqlExpr.bindExpr 0)

/-- `DELETE FROM orders WHERE id = ?`. -/
def stmtDelIdBind : Stmt := Stmt.delete ⟨"orders", some condIdBind⟩

/-- `INSERT INTO orders (user_id, id) VALUES (100, 5)` — id supplied. -/
def insWithId : InsertStmt :=
  ⟨"orders", ["user_id", "id"], [[SqlExpr.numberLit "100", SqlExpr.numberLit "5"]]⟩

/-- A value row with `user_id = 7`. -/
def rowSeven : List SqlExpr := [SqlExpr.numberLit "7"]

/-- A value row with `user_id = 1`. -/
def rowOne : List SqlExpr := [SqlExpr.numberLit "1"]

/-- `INSERT INTO orders (user_id) VALUES (7), (1)`. -/
def insTwoRows : InsertStmt := ⟨"orders", ["user_id"], [rowSeven, rowOne]⟩

/-- `UPDATE users SET ... WHERE user_id = 5` on the unregistered `users`. -/
def stmtUpdUnregistered : Stmt :=
  Stmt.update ⟨"users", [],
    some (SqlExpr.binary (SqlExpr.ident "user_id") BinOp.eq (SqlExpr.numberLit "5"))⟩

/-- `SELECT /* nosharding */ * FROM orders`. -/
def stmtSelHint : Stmt := Stmt.select ⟨some "orders", some "nosharding", none, []⟩

/-- `INSERT INTO orders (user_id) VALUES (100)`. -/
def insSingleRow : InsertStmt := ⟨"orders", ["user_id"], [[SqlExpr.numberLit "100"]]⟩

/-- `DELETE FROM orders WHERE user_id = ?` binding position 0. -/
def stmtDelKeyBind : Stmt :=
  Stmt.delete ⟨"orders",
    some (SqlExpr.binary (SqlExpr.ident "user_id") BinOp.eq (SqlExpr.bindExpr 0))⟩

/-! ### Basic lemmas about the embedding -/

lemma lookup_some_not_empty {configs : Configs} {tn : String} {r : Config}
    (h : configs.lookup tn = some r) : configs.isEmpty = false := by
  cases configs with
  | nil => simp [List.lookup] at h
  | cons p l => rfl

lemma wrapFail_fail_iff {tn : String}
    {X : Except Fail (QueryOut × QueryOut × String × List Int)}
    {ft st : QueryOut} {tn' : String} {e : Err} :
    wrapFail tn X = RRes.fail ft st tn' e ↔
      X = Except.error (Fail.failed e) ∧ ft = QueryOut.original
        ∧ st = QueryOut.original ∧ tn' = tn := by
  cases X with
  | ok val =>
    obtain ⟨a, b, c, d⟩ := val
    simp [wrapFail]
  | error f =>
    cases f with
    | panicked => simp [wrapFail]
    | failed e' =>
      simp only [wrapFail, RRes.fail.injEq]
      constructor
      · rintro ⟨h1, h2, h3, h4⟩
        exact ⟨by rw [h4], h1.symm, h2.symm, h3.symm⟩
      · rintro ⟨h1, h2, h3, h4⟩
        cases h1
        exact ⟨h2.symm, h3.symm, h4.symm, rfl⟩

lemma failsWith_wrapFail {tn : String}
    {X : Except Fail (QueryOut × QueryOut × String × List Int)} {e : Err} :
    failsWith (wrapFail tn X) e ↔ X = Except.error (Fail.failed e) := by
  constructor
  · rintro ⟨ft, st, tn', h⟩
    exact (wrapFail_fail_iff.mp h).1
  · intro h
    exact ⟨QueryOut.original, QueryOut.original, tn, by rw [h]; rfl⟩

lemma wrapFail_ne_panicked {tn : String}
    {X : Except Fail (QueryOut × QueryOut × String × List Int)}
    (h : X ≠ Except.error Fail.panicked) : wrapFail tn X ≠ RRes.panicked := by
  cases X with
  | ok val => obtain ⟨a, b, c, d⟩ := val; simp [wrapFail]
  | error f =>
    cases f with
    | panicked => exact absurd rfl h
    | failed e' => simp [wrapFail]

lemma resolve_select_eq {configs : Configs} {s : SelectStmt} {tn : String}
    {r : Config} {args : List Value} (hft : s.fromTable = some tn)
    (hh : ¬s.hint = some "nosharding") (h : configs.lookup tn = some r) :
    resolve configs (some (Stmt.select s)) args
      = wrapFail tn (selectResolve r tn s args) := by
  unfold resolve
  simp [lookup_some_not_empty h, hft, hh, h]

lemma resolve_insert_eq {configs : Configs} {i : InsertStmt} {r : Config}
    {args : List Value} (h : configs.lookup i.tableName = some r) :
    resolve configs (some (Stmt.insert i)) args
      = wrapFail i.tableName (insertResolve r i args) := by
  unfold resolve
  simp [lookup_some_not_empty h, h]

lemma resolve_update_eq {configs : Configs} {u : UpdateStmt} {r : Config}
    {args : List Value} (h : configs.lookup u.tableName = some r) :
    resolve configs (some (Stmt.update u)) args
      = wrapFail u.tableName (updateResolve r u args) := by
  unfold resolve
  simp [lookup_some_not_empty h, h]

lemma resolve_delete_eq {configs : Configs} {d : DeleteStmt} {r : Config}
    {args : List Value} (h : configs.lookup d.tableName = some r) :
    resolve configs (some (Stmt.delete d)) args
      = wrapFail d.tableName (deleteResolve r d args) := by
  unfold resolve
  simp [lookup_some_not_empty h, h]

lemma getArg_ok_of_lt {args : List Value} {p : Nat} (h : p < args.length) :
    ∃ v, getArg args p = Except.ok v := by
  unfold getArg
  cases hg : args.get? p with
  | none =>
    rw [List.get?_eq_none] at hg
    omega
  | some v => exact ⟨v, rfl⟩

lemma getSuffix_error_shape {v : Value} {id : Int} {kf : Bool} {r : Config}
    {f : Fail} (h : getSuffix v id kf r = Except.error f) :
    ∃ er, f = Fail.failed er ∧ er ≠ Err.missingShardingKey
      ∧ er ≠ Err.insertDiffSuffix := by
  unfold getSuffix at h
  split at h
  · split at h
    · exact absurd h (by simp)
    · rename_i msg _
      refine ⟨Err.algError msg, ?_, by simp, by simp⟩
      cases h
      rfl
  · split at h
    · refine ⟨Err.noShardingAlgorithmByPrimaryKey, ?_, by simp, by simp⟩
      cases h
      rfl
    · exact absurd h (by simp)

/-! ### Lemmas about the condition walk -/

lemma getArg_error_iff {args : List Value} {p : Nat} :
    getArg args p = Except.error Fail.panicked ↔ args.get? p = none := by
  unfold getArg
  split <;> rename_i hg <;> rw [hg] <;> simp

lemma visitNode_classify (key : String) (args : List Value) (st : WalkState)
    (e : SqlExpr) :
    (∃ st', visitNode key args st e = Except.ok st'
       ∧ st'.keyFind = (st.keyFind || nodeIsEqOn key e))
    ∨ (∃ n p, e = SqlExpr.binary (SqlExpr.ident n) BinOp.eq (SqlExpr.bindExpr p)
        ∧ (n = key ∨ n = "id") ∧ args.get? p = none
        ∧ visitNode key args st e = Except.error Fail.panicked)
    ∨ (∃ er, visitNode key args st e = Except.error (Fail.failed er)
        ∧ er ≠ Err.missingShardingKey ∧ er ≠ Err.insertDiffSuffix) := by
  cases e with
  | binary x op y =>
    cases x with
    | ident n =>
      by_cases h1 : n = key ∧ op = BinOp.eq
      · cases y with
        | bindExpr pos =>
          cases hg : getArg args pos with
          | ok v =>
            refine Or.inl ⟨{ st with value := v, keyFind := true }, ?_, ?_⟩
            · simp [visitNode, h1, hg]
            · simp [nodeIsEqOn, h1]
          | error f =>
            cases f with
            | panicked =>
              refine Or.inr (Or.inl ⟨n, pos, ?_, Or.inl h1.1, ?_, ?_⟩)
              · rw [h1.2]
              · exact getArg_error_iff.mp hg
              · simp [visitNode, h1, hg]
            | failed er =>
              exact absurd hg (by unfold getArg; split <;> simp)
        | stringLit s =>
          exact Or.inl ⟨{ st with value := Value.vStr s, keyFind := true },
            by simp [visitNode, h1], by simp [nodeIsEqOn, h1]⟩
        | numberLit s =>
          exact Or.inl ⟨{ st with value := Value.vStr s, keyFind := true },
            by simp [visitNode, h1], by simp [nodeIsEqOn, h1]⟩
        | ident m =>
          exact Or.inr (Or.inr ⟨Err.notImplemented, by simp [visitNode, h1], by simp, by simp⟩)
        | binary a o b =>
          exact Or.inr (Or.inr ⟨Err.notImplemented, by simp [visitNode, h1], by simp, by simp⟩)
        | paren a =>
          exact Or.inr (Or.inr ⟨Err.notImplemented, by simp [visitNode, h1], by simp, by simp⟩)
        | otherExpr =>
          exact Or.inr (Or.inr ⟨Err.notImplemented, by simp [visitNode, h1], by simp, by simp⟩)
      · by_cases h2 : n = "id" ∧ op = BinOp.eq
        · have hk : ¬(("id" : String) = key) := fun hc => h1 ⟨h2.1.trans hc, h2.2⟩
          cases y with
          | bindExpr pos =>
            cases hg : getArg args pos with
            | ok v =>
              cases v with
              | vInt64 m =>
                refine Or.inl ⟨{ st with id := m },
                  by simp [visitNode, h2.1, h2.2, hk, hg], ?_⟩
                simp [nodeIsEqOn, h2.1, h2.2, hk]
              | vInt m =>
                exact Or.inr (Or.inr ⟨Err.idShouldBeInt64,
                  by simp [visitNode, h2.1, h2.2, hk, hg], by simp, by simp⟩)
              | vStr s =>
                exact Or.inr (Or.inr ⟨Err.idShouldBeInt64,
                  by simp [visitNode, h2.1, h2.2, hk, hg], by simp, by simp⟩)
              | vNil =>
                exact Or.inr (Or.inr ⟨Err.idShouldBeInt64,
                  by simp [visitNode, h2.1, h2.2, hk, hg], by simp, by simp⟩)
              | vOther =>
                exact Or.inr (Or.inr ⟨Err.idShouldBeInt64,
                  by simp [visitNode, h2.1, h2.2, hk, hg], by simp, by simp⟩)
            | error f =>
              cases f with
              | panicked =>
                refine Or.inr (Or.inl ⟨n, pos, ?_, Or.inr h2.1, ?_, ?_⟩)
                · rw [h2.2]
                · exact getArg_error_iff.mp hg
                · simp [visitNode, h2.1, h2.2, hk, hg]
              | failed er =>
                exact absurd hg (by unfold getArg; split <;> simp)
          | numberLit s =>
            cases hp : goParseInt64 s with
            | some m =>
              refine Or.inl ⟨{ st with id := m },
                by simp [visitNode, h2.1, h2.2, hk, hp], ?_⟩
              simp [nodeIsEqOn, h2.1, h2.2, hk]
            | none =>
              exact Or.inr (Or.inr ⟨Err.idParseIntError,
                by simp [visitNode, h2.1, h2.2, hk, hp], by simp, by simp⟩)
          | ident m =>
            exact Or.inr (Or.inr ⟨Err.invalidID,
              by simp [visitNode, h2.1, h2.2, hk], by simp, by simp⟩)
          | stringLit s =>
            exact Or.inr (Or.inr ⟨Err.invalidID,
              by simp [visitNode, h2.1, h2.2, hk], by simp, by simp⟩)
          | binary a o b =>
            exact Or.inr (Or.inr ⟨Err.invalidID,
              by simp [visitNode, h2.1, h2.2, hk], by simp, by simp⟩)
          | paren a =>
            exact Or.inr (Or.inr ⟨Err.invalidID,
              by simp [visitNode, h2.1, h2.2, hk], by simp, by simp⟩)
          | otherExpr =>
            exact Or.inr (Or.inr ⟨Err.invalidID,
              by simp [visitNode, h2.1, h2.2, hk], by simp, by simp⟩)
        · refine Or.inl ⟨st, by simp [visitNode, h1, h2], ?_⟩
          simp [nodeIsEqOn, h1]
    | bindExpr p => exact Or.inl ⟨st, by simp [visitNode], by simp [nodeIsEqOn]⟩
    | stringLit s => exact Or.inl ⟨st, by simp [visitNode], by simp [nodeIsEqOn]⟩
    | numberLit s => exact Or.inl ⟨st, by simp [visitNode], by simp [nodeIsEqOn]⟩
    | binary a o b => exact Or.inl ⟨st, by simp [visitNode], by simp [nodeIsEqOn]⟩
    | paren a => exact Or.inl ⟨st, by simp [visitNode], by simp [nodeIsEqOn]⟩
    | otherExpr => exact Or.inl ⟨st, by simp [visitNode], by simp [nodeIsEqOn]⟩
  | ident n => exact Or.inl ⟨st, by simp [visitNode], by simp [nodeIsEqOn]⟩
  | bindExpr p => exact Or.inl ⟨st, by simp [visitNode], by simp [nodeIsEqOn]⟩
  | stringLit s => exact Or.inl ⟨st, by simp [visitNode], by simp [nodeIsEqOn]⟩
  | numberLit s => exact Or.inl ⟨st, by simp [visitNode], by simp [nodeIsEqOn]⟩
  | paren a => exact Or.inl ⟨st, by simp [visitNode], by simp [nodeIsEqOn]⟩
  | otherExpr => exact Or.inl ⟨st, by simp [visitNode], by simp [nodeIsEqOn]⟩

lemma walkExpr_failed_ne (key : String) (args : List Value) :
    ∀ (e : SqlExpr) (st : WalkState) (er : Err),
      walkExpr key args e st = Except.error (Fail.failed er) →
      er ≠ Err.missingShardingKey ∧ er ≠ Err.insertDiffSuffix := by
  intro e
  induction e with
  | binary x op y ihx ihy =>
    intro st er h
    unfold walkExpr at h
    split at h
    · rename_i f heq
      simp only [Except.error.injEq] at h
      subst h
      rcases visitNode_classify key args st (SqlExpr.binary x op y) with
        ⟨st1, hv, _⟩ | ⟨n, p, _, _, _, hv⟩ | ⟨er', hv, hne1, hne2⟩
      · rw [hv] at heq; exact absurd heq (by simp)
      · rw [hv] at heq
        simp only [Except.error.injEq] at heq
        exact absurd heq.symm (by simp)
      · rw [hv] at heq
        simp only [Except.error.injEq, Fail.failed.injEq] at heq
        rw [← heq]
        exact ⟨hne1, hne2⟩
    · rename_i st1 heq
      split at h
      · rename_i f heq2
        simp only [Except.error.injEq] at h
        subst h
        exact ihx st1 er heq2
      · rename_i st2 heq2
        exact ihy st2 er h
  | paren x ih =>
    intro st er h
    unfold walkExpr at h
    split at h
    · rename_i f heq
      simp only [Except.error.injEq] at h
      subst h
      rcases visitNode_classify key args st (SqlExpr.paren x) with
        ⟨st1, hv, _⟩ | ⟨n, p, hsh, _, _, _⟩ | ⟨er', hv, hne1, hne2⟩
      · rw [hv] at heq; exact absurd heq (by simp)
      · exact absurd hsh (by simp)
      · rw [hv] at heq
        simp only [Except.error.injEq, Fail.failed.injEq] at heq
        rw [← heq]
        exact ⟨hne1, hne2⟩
    · rename_i st1 heq
      exact ih st1 er h
  | ident n =>
    intro st er h
    rw [show walkExpr key args (SqlExpr.ident n) st
          = visitNode key args st (SqlExpr.ident n) from rfl] at h
    exact absurd h (by simp [visitNode])
  | bindExpr p =>
    intro st er h
    rw [show walkExpr key args (SqlExpr.bindExpr p) st
          = visitNode key args st (SqlExpr.bindExpr p) from rfl] at h
    exact absurd h (by simp [visitNode])
  | stringLit s =>
    intro st er h
    rw [show walkExpr key args (SqlExpr.stringLit s) st
          = visitNode key args st (SqlExpr.stringLit s) from rfl] at h
    exact absurd h (by simp [visitNode])
  | numberLit s =>
    intro st er h
    rw [show walkExpr key args (SqlExpr.numberLit s) st
          = visitNode key args st (SqlExpr.numberLit s) from rfl] at h
    exact absurd h (by simp [visitNode])
  | otherExpr =>
    intro st er h
    rw [show walkExpr key args SqlExpr.otherExpr st
          = visitNode key args st SqlExpr.otherExpr from rfl] at h
    exact absurd h (by simp [visitNode])

lemma walkExpr_keyFind (key : String) (args : List Value) :
    ∀ (e : SqlExpr) (st st' : WalkState),
      walkExpr key args e st = Except.ok st' →
      st'.keyFind = (st.keyFind || hasEqOn key e) := by
  intro e
  induction e with
  | binary x op y ihx ihy =>
    intro st st' h
    unfold walkExpr at h
    split at h
    · exact absurd h (by simp)
    · rename_i st1 heq
      split at h
      · exact absurd h (by simp)
      · rename_i st2 heq2
        have e1 : st1.keyFind = (st.keyFind || nodeIsEqOn key (SqlExpr.binary x op y)) := by
          rcases visitNode_classify key args st (SqlExpr.binary x op y) with
            ⟨st1', hv, hkf⟩ | ⟨n, p, _, _, _, hv⟩ | ⟨er', hv, _, _⟩
          · rw [hv] at heq
            simp only [Except.ok.injEq] at heq
            rw [← heq]
            exact hkf
          · rw [hv] at heq; exact absurd heq (by simp)
          · rw [hv] at heq; exact absurd heq (by simp)
        have e2 := ihx st1 st2 heq2
        have e3 := ihy st2 st' h
        rw [e3, e2, e1]
        simp only [hasEqOn, Bool.or_assoc]
  | paren x ih =>
    intro st st' h
    unfold walkExpr at h
    split at h
    · exact absurd h (by simp)
    · rename_i st1 heq
      have e1 : st1.keyFind = st.keyFind := by
        rcases visitNode_classify key args st (SqlExpr.paren x) with
          ⟨st1', hv, hkf⟩ | ⟨n, p, hsh, _, _, _⟩ | ⟨er', hv, _, _⟩
        · rw [hv] at heq
          simp only [Except.ok.injEq] at heq
          rw [← heq, hkf]
          simp [nodeIsEqOn]
        · exact absurd hsh (by simp)
        · rw [hv] at heq; exact absurd heq (by simp)
      have e2 := ih st1 st' h
      rw [e2, e1]
      simp only [hasEqOn]
  | ident n =>
    intro st st' h
    rcases visitNode_classify key args st (SqlExpr.ident n) with
      ⟨st1', hv, hkf⟩ | ⟨m, p, hsh, _, _, _⟩ | ⟨er', hv, _, _⟩
    · rw [show walkExpr key args (SqlExpr.ident n) st
            = visitNode key args st (SqlExpr.ident n) from rfl, hv] at h
      simp only [Except.ok.injEq] at h
      rw [← h, hkf]
      simp [hasEqOn]
    · exact absurd hsh (by simp)
    · rw [show walkExpr key args (SqlExpr.ident n) st
            = visitNode key args st (SqlExpr.ident n) from rfl, hv] at h
      exact absurd h (by simp)
  | bindExpr p =>
    intro st st' h
    rcases visitNode_classify key args st (SqlExpr.bindExpr p) with
      ⟨st1', hv, hkf⟩ | ⟨m, q, hsh, _, _, _⟩ | ⟨er', hv, _, _⟩
    · rw [show walkExpr key args (SqlExpr.bindExpr p) st
            = visitNode key args st (SqlExpr.bindExpr p) from rfl, hv] at h
      simp only [Except.ok.injEq] at h
      rw [← h, hkf]
      simp [hasEqOn]
    · exact absurd hsh (by simp)
    · rw [show walkExpr key args (SqlExpr.bindExpr p) st
            = visitNode key args st (SqlExpr.bindExpr p) from rfl, hv] at h
      exact absurd h (by simp)
  | stringLit s =>
    intro st st' h
    rcases visitNode_classify key args st (SqlExpr.stringLit s) with
      ⟨st1', hv, hkf⟩ | ⟨m, q, hsh, _, _, _⟩ | ⟨er', hv, _, _⟩
    · rw [show walkExpr key args (SqlExpr.stringLit s) st
            = visitNode key args st (SqlExpr.stringLit s) from rfl, hv] at h
      simp only [Except.ok.injEq] at h
      rw [← h, hkf]
      simp [hasEqOn]
    · exact absurd hsh (by simp)
    · rw [show walkExpr key args (SqlExpr.stringLit s) st
            = visitNode key args st (SqlExpr.stringLit s) from rfl, hv] at h
      exact absurd h (by simp)
  | numberLit s =>
    intro st st' h
    rcases visitNode_classify key args st (SqlExpr.numberLit s) with
      ⟨st1', hv, hkf⟩ | ⟨m, q, hsh, _, _, _⟩ | ⟨er', hv, _, _⟩
    · rw [show walkExpr key args (SqlExpr.numberLit s) st
            = visitNode key args st (SqlExpr.numberLit s) from rfl, hv] at h
      simp only [Except.ok.injEq] at h
      rw [← h, hkf]
      simp [hasEqOn]
    · exact absurd hsh (by simp)
    · rw [show walkExpr key args (SqlExpr.numberLit s) st
            = visitNode key args st (SqlExpr.numberLit s) from rfl, hv] at h
      exact absurd h (by simp)
  | otherExpr =>
    intro st st' h
    rcases visitNode_classify key args st SqlExpr.otherExpr with
      ⟨st1', hv, hkf⟩ | ⟨m, q, hsh, _, _, _⟩ | ⟨er', hv, _, _⟩
    · rw [show walkExpr key args SqlExpr.otherExpr st
            = visitNode key args st SqlExpr.otherExpr from rfl, hv] at h
      simp only [Except.ok.injEq] at h
      rw [← h, hkf]
      simp [hasEqOn]
    · exact absurd hsh (by simp)
    · rw [show walkExpr key args SqlExpr.otherExpr st
            = visitNode key args st SqlExpr.otherExpr from rfl, hv] at h
      exact absurd h (by simp)

lemma visitNode_no_panic (key : String) (args : List Value) (st : WalkState)
    (e : SqlExpr) (hok : nodeBindOK key args.length e = true) :
    visitNode key args st e ≠ Except.error Fail.panicked := by
  intro h
  rcases visitNode_classify key args st e with
    ⟨st', hv, _⟩ | ⟨n, p, hsh, hn, hget, hv⟩ | ⟨er', hv, _, _⟩
  · rw [hv] at h; exact absurd h (by simp)
  · subst hsh
    have hlt : p < args.length := by
      have : nodeBindOK key args.length
          (SqlExpr.binary (SqlExpr.ident n) BinOp.eq (SqlExpr.bindExpr p))
            = decide (p < args.length) := by
        unfold nodeBindOK
        simp [hn]
      rw [this] at hok
      exact of_decide_eq_true hok
    rw [List.get?_eq_none] at hget
    omega
  · rw [hv] at h; exact absurd h (by simp)

lemma walkExpr_no_panic (key : String) (args : List Value) :
    ∀ (e : SqlExpr) (st : WalkState),
      allBindsOK key args.length e = true →
      walkExpr key args e st ≠ Except.error Fail.panicked := by
  intro e
  induction e with
  | binary x op y ihx ihy =>
    intro st hok h
    rw [show allBindsOK key args.length (SqlExpr.binary x op y)
          = (nodeBindOK key args.length (SqlExpr.binary x op y)
              && allBindsOK key args.length x && allBindsOK key args.length y)
        from rfl] at hok
    simp only [Bool.and_eq_true] at hok
    unfold walkExpr at h
    split at h
    · rename_i f heq
      simp only [Except.error.injEq] at h
      subst h
      exact visitNode_no_panic key args st _ hok.1.1 heq
    · rename_i st1 heq
      split at h
      · rename_i f heq2
        simp only [Except.error.injEq] at h
        subst h
        exact ihx st1 hok.1.2 heq2
      · rename_i st2 heq2
        exact ihy st2 hok.2 h
  | paren x ih =>
    intro st hok h
    rw [show allBindsOK key args.length (SqlExpr.paren x)
          = allBindsOK key args.length x from rfl] at hok
    unfold walkExpr at h
    split at h
    · rename_i f heq
      simp only [Except.error.injEq] at h
      subst h
      exact visitNode_no_panic key args st _ (by simp [nodeBindOK]) heq
    · rename_i st1 heq
      exact ih st1 hok h
  | ident n =>
    intro st hok h
    exact visitNode_no_panic key args st _ hok h
  | bindExpr p =>
    intro st hok h
    exact visitNode_no_panic key args st _ hok h
  | stringLit s =>
    intro st hok h
    exact visitNode_no_panic key args st _ hok h
  | numberLit s =>
    intro st hok h
    exact visitNode_no_panic key args st _ hok h
  | otherExpr =>
    intro st hok h
    exact visitNode_no_panic key args st _ hok h

lemma visitNode_zero (key : String) (args : List Value) (e : SqlExpr)
    (hz : zeroIdOnlyNode key args e = true) :
    visitNode key args initWalkState e = Except.ok initWalkState := by
  cases e with
  | binary x op y =>
    cases x with
    | ident n =>
      cases op with
      | eq =>
        by_cases h1 : n = key
        · simp [zeroIdOnlyNode, h1] at hz
        · by_cases h2 : n = "id"
          · subst h2
            cases y with
            | numberLit s =>
              simp [zeroIdOnlyNode, h1] at hz
              subst hz
              have hp : goParseInt64 "0" = some 0 := by decide
              simp [visitNode, h1, hp, initWalkState]
            | bindExpr p =>
              simp [zeroIdOnlyNode, h1] at hz
              simp [visitNode, h1, getArg, hz, initWalkState]
            | ident m => simp [zeroIdOnlyNode, h1] at hz
            | stringLit s => simp [zeroIdOnlyNode, h1] at hz
            | binary a o b => simp [zeroIdOnlyNode, h1] at hz
            | paren a => simp [zeroIdOnlyNode, h1] at hz
            | otherExpr => simp [zeroIdOnlyNode, h1] at hz
          · simp [visitNode, h1, h2]
      | ne => simp [visitNode]
      | lt => simp [visitNode]
      | gt => simp [visitNode]
      | otherOp => simp [visitNode]
    | bindExpr p => simp [visitNode]
    | stringLit s => simp [visitNode]
    | numberLit s => simp [visitNode]
    | binary a o b => simp [visitNode]
    | paren a => simp [visitNode]
    | otherExpr => simp [visitNode]
  | ident n => simp [visitNode]
  | bindExpr p => simp [visitNode]
  | stringLit s => simp [visitNode]
  | numberLit s => simp [visitNode]
  | paren a => simp [visitNode]
  | otherExpr => simp [visitNode]

lemma walkExpr_zero (key : String) (args : List Value) :
    ∀ (e : SqlExpr), zeroIdOnly key args e = true →
      walkExpr key args e initWalkState = Except.ok initWalkState := by
  intro e
  induction e with
  | binary x op y ihx ihy =>
    intro hz
    rw [show zeroIdOnly key args (SqlExpr.binary x op y)
          = (zeroIdOnlyNode key args (SqlExpr.binary x op y)
              && zeroIdOnly key args x && zeroIdOnly key args y) from rfl] at hz
    simp only [Bool.and_eq_true] at hz
    simp only [walkExpr, visitNode_zero key args _ hz.1.1, ihx hz.1.2, ihy hz.2]
  | paren x ih =>
    intro hz
    rw [show zeroIdOnly key args (SqlExpr.paren x)
          = zeroIdOnly key args x from rfl] at hz
    simp only [walkExpr,
      visitNode_zero key args (SqlExpr.paren x)
        (show zeroIdOnlyNode key args (SqlExpr.paren x) = true from rfl),
      ih hz]
  | ident n =>
    intro hz
    exact visitNode_zero key args _ hz
  | bindExpr p =>
    intro hz
    exact visitNode_zero key args _ hz
  | stringLit s =>
    intro hz
    exact visitNode_zero key args _ hz
  | numberLit s =>
    intro hz
    exact visitNode_zero key args _ hz
  | otherExpr =>
    intro hz
    exact visitNode_zero key args _ hz

lemma walkCond_failed_ne {key : String} {args : List Value} {cond : Option SqlExpr}
    {er : Err} (h : walkCond key args cond = Except.error (Fail.failed er)) :
    er ≠ Err.missingShardingKey ∧ er ≠ Err.insertDiffSuffix := by
  cases cond with
  | none => exact absurd h (by simp [walkCond])
  | some c => exact walkExpr_failed_ne key args c initWalkState er h

lemma walkCond_no_panic {key : String} {args : List Value} {cond : Option SqlExpr}
    (hok : condBindsOK key args.length cond = true) :
    walkCond key args cond ≠ Except.error Fail.panicked := by
  cases cond with
  | none => simp [walkCond]
  | some c =>
    exact walkExpr_no_panic key args c initWalkState
      (by rw [show condBindsOK key args.length (some c)
                = allBindsOK key args.length c from rfl] at hok; exact hok)

lemma walkCond_keyFind {key : String} {args : List Value} {cond : Option SqlExpr}
    {st : WalkState} (h : walkCond key args cond = Except.ok st) :
    st.keyFind = hasCondEqOn key cond := by
  cases cond with
  | none =>
    rw [show walkCond key args none = Except.ok initWalkState from rfl] at h
    simp only [Except.ok.injEq] at h
    rw [← h]
    rfl
  | some c =>
    have := walkExpr_keyFind key args c initWalkState st h
    rw [this]
    simp [initWalkState, hasCondEqOn]

lemma nonInsertValue_of_walk_error {key : String} {cond : Option SqlExpr}
    {args : List Value} {f : Fail} (hw : walkCond key args cond = Except.error f) :
    nonInsertValue key cond args = Except.error f := by
  unfold nonInsertValue
  rw [hw]

lemma nonInsertValue_of_walk_ok {key : String} {cond : Option SqlExpr}
    {args : List Value} {st : WalkState} (hw : walkCond key args cond = Except.ok st) :
    nonInsertValue key cond args
      = (if st.keyFind = false ∧ st.id = 0
         then Except.error (Fail.failed Err.missingShardingKey)
         else Except.ok (st.value, st.id, st.keyFind)) := by
  unfold nonInsertValue
  rw [hw]

lemma nonInsertValue_msk_iff (key : String) (cond : Option SqlExpr)
    (args : List Value) :
    nonInsertValue key cond args = Except.error (Fail.failed Err.missingShardingKey) ↔
      ∃ st, walkCond key args cond = Except.ok st
        ∧ st.keyFind = false ∧ st.id = 0 := by
  cases hw : walkCond key args cond with
  | error f =>
    rw [nonInsertValue_of_walk_error hw]
    constructor
    · intro h
      simp only [Except.error.injEq] at h
      subst h
      exact absurd rfl (walkCond_failed_ne hw).1
    · rintro ⟨st, hst, -, -⟩
      exact absurd hst (by simp)
  | ok st =>
    rw [nonInsertValue_of_walk_ok hw]
    by_cases hc : st.keyFind = false ∧ st.id = 0
    · rw [if_pos hc]
      exact ⟨fun _ => ⟨st, rfl, hc⟩, fun _ => rfl⟩
    · rw [if_neg hc]
      constructor
      · intro h
        exact absurd h (by simp)
      · rintro ⟨st', hst, hkf, hid⟩
        simp only [Except.ok.injEq] at hst
        subst hst
        exact absurd ⟨hkf, hid⟩ hc

lemma nonInsertValue_no_panic {key : String} {cond : Option SqlExpr}
    {args : List Value} (hok : condBindsOK key args.length cond = true) :
    nonInsertValue key cond args ≠ Except.error Fail.panicked := by
  cases hw : walkCond key args cond with
  | error f =>
    rw [nonInsertValue_of_walk_error hw]
    cases f with
    | panicked => exact absurd hw (walkCond_no_panic hok)
    | failed er => simp
  | ok st =>
    rw [nonInsertValue_of_walk_ok hw]
    split <;> simp

lemma nonInsertValue_failed_ne_diff {key : String} {cond : Option SqlExpr}
    {args : List Value} {er : Err}
    (h : nonInsertValue key cond args = Except.error (Fail.failed er)) :
    er ≠ Err.insertDiffSuffix := by
  cases hw : walkCond key args cond with
  | error f =>
    rw [nonInsertValue_of_walk_error hw] at h
    simp only [Except.error.injEq] at h
    subst h
    exact (walkCond_failed_ne hw).2
  | ok st =>
    rw [nonInsertValue_of_walk_ok hw] at h
    split at h
    · simp only [Except.error.injEq, Fail.failed.injEq] at h
      rw [← h]
      simp
    · exact absurd h (by simp)

/-! ### Lemmas about the insert path -/

lemma getArg_error_eq {args : List Value} {p : Nat} {f : Fail}
    (h : getArg args p = Except.error f) : f = Fail.panicked := by
  unfold getArg at h
  split at h
  · exact absurd h (by simp)
  · simp only [Except.error.injEq] at h
    exact h.symm

lemma getSuffix_no_panic {v : Value} {id : Int} {kf : Bool} {r : Config} :
    getSuffix v id kf r ≠ Except.error Fail.panicked := by
  intro h
  obtain ⟨er, hf, -, -⟩ := getSuffix_error_shape h
  exact absurd hf (by simp)

lemma containsStr_cons (n : String) (ns : List String) (key : String) :
    containsStr (n :: ns) key = if n = key then true else containsStr ns key := rfl

lemma findKeyExpr_none_of_not_contains {key : String} :
    ∀ (names : List String) (exprs : List SqlExpr), containsStr names key = false →
      findKeyExpr key (names.zip exprs) = none := by
  intro names
  induction names with
  | nil => intro exprs _; rfl
  | cons n ns ih =>
    intro exprs h
    cases exprs with
    | nil => rfl
    | cons e es =>
      have hn : ¬n = key := by
        intro hc
        rw [containsStr_cons, if_pos hc] at h
        exact absurd h (by simp)
      rw [containsStr_cons, if_neg hn] at h
      rw [show (n :: ns).zip (e :: es) = (n, e) :: ns.zip es from rfl]
      rw [show findKeyExpr key ((n, e) :: ns.zip es)
            = if n = key then some e else findKeyExpr key (ns.zip es) from rfl]
      rw [if_neg hn]
      exact ih es h

lemma findKeyExpr_some_of_contains {key : String} :
    ∀ (names : List String) (exprs : List SqlExpr), containsStr names key = true →
      names.length = exprs.length →
      ∃ e, findKeyExpr key (names.zip exprs) = some e := by
  intro names
  induction names with
  | nil => intro exprs h _; exact absurd h (by simp [containsStr])
  | cons n ns ih =>
    intro exprs h hlen
    cases exprs with
    | nil => simp at hlen
    | cons e es =>
      rw [show (n :: ns).zip (e :: es) = (n, e) :: ns.zip es from rfl]
      by_cases hn : n = key
      · exact ⟨e, by
          rw [show findKeyExpr key ((n, e) :: ns.zip es)
                = if n = key then some e else findKeyExpr key (ns.zip es) from rfl]
          rw [if_pos hn]⟩
      · rw [containsStr_cons, if_neg hn] at h
        have hlen' : ns.length = es.length := by simpa using hlen
        obtain ⟨e', he'⟩ := ih es h hlen'
        refine ⟨e', ?_⟩
        rw [show findKeyExpr key ((n, e) :: ns.zip es)
              = if n = key then some e else findKeyExpr key (ns.zip es) from rfl]
        rw [if_neg hn]
        exact he'

lemma insertValue_msk_of_not_contains {key : String} {names : List String}
    {row : List SqlExpr} {args : List Value}
    (hc : containsStr names key = false) (hlen : names.length = row.length) :
    insertValue key names row args
      = Except.error (Fail.failed Err.missingShardingKey) := by
  unfold insertValue
  rw [if_neg (show ¬names.length ≠ row.length from fun hh => hh hlen)]
  rw [findKeyExpr_none_of_not_contains names row hc]

lemma insertValue_contains_ne_msk {key : String} {names : List String}
    {row : List SqlExpr} {args : List Value}
    (hc : containsStr names key = true) :
    insertValue key names row args
      ≠ Except.error (Fail.failed Err.missingShardingKey) := by
  intro h
  unfold insertValue at h
  split at h
  · exact absurd h (by simp)
  · rename_i hlen
    have hlen' : names.length = row.length := not_ne_iff.mp hlen
    obtain ⟨e, he⟩ := findKeyExpr_some_of_contains names row hc hlen'
    rw [he] at h
    cases e with
    | bindExpr pos =>
      cases hga : getArg args pos with
      | ok v => simp [hga] at h
      | error f =>
        have := getArg_error_eq hga
        subst this
        simp [hga] at h
    | stringLit s => exact absurd h (by simp)
    | numberLit s => exact absurd h (by simp)
    | ident m => exact absurd h (by simp)
    | binary a o b => exact absurd h (by simp)
    | paren a => exact absurd h (by simp)
    | otherExpr => exact absurd h (by simp)

lemma insertValue_no_panic {key : String} {names : List String}
    {row : List SqlExpr} {args : List Value}
    (hok : rowBindOK key args.length names row = true) :
    insertValue key names row args ≠ Except.error Fail.panicked := by
  intro h
  unfold insertValue at h
  split at h
  · exact absurd h (by simp)
  · cases hf : findKeyExpr key (names.zip row) with
    | none => rw [hf] at h; exact absurd h (by simp)
    | some e =>
      rw [hf] at h
      cases e with
      | bindExpr pos =>
        unfold rowBindOK at hok
        rw [hf] at hok
        have hlt : pos < args.length := of_decide_eq_true hok
        obtain ⟨v, hv⟩ := getArg_ok_of_lt hlt
        simp [hv] at h
      | stringLit s => exact absurd h (by simp)
      | numberLit s => exact absurd h (by simp)
      | ident m => exact absurd h (by simp)
      | binary a o b => exact absurd h (by simp)
      | paren a => exact absurd h (by simp)
      | otherExpr => exact absurd h (by simp)

lemma insertValue_failed_ne_diff {key : String} {names : List String}
    {row : List SqlExpr} {args : List Value} {er : Err}
    (h : insertValue key names row args = Except.error (Fail.failed er)) :
    er ≠ Err.insertDiffSuffix := by
  unfold insertValue at h
  split at h
  · simp only [Except.error.injEq, Fail.failed.injEq] at h
    rw [← h]
    simp
  · cases hf : findKeyExpr key (names.zip row) with
    | none =>
      rw [hf] at h
      simp only [Except.error.injEq, Fail.failed.injEq] at h
      rw [← h]
      simp
    | some e =>
      rw [hf] at h
      cases e with
      | bindExpr pos =>
        cases hga : getArg args pos with
        | ok v => simp [hga] at h
        | error f =>
          have := getArg_error_eq hga
          subst this
          simp [hga] at h
      | stringLit s => exact absurd h (by simp)
      | numberLit s => exact absurd h (by simp)
      | ident m =>
        simp at h
        rw [← h]
        simp
      | binary a o b =>
        simp at h
        rw [← h]
        simp
      | paren a =>
        simp at h
        rw [← h]
        simp
      | otherExpr =>
        simp at h
        rw [← h]
        simp

lemma insertLoop_nil (r : Config) (origNames : List String) (args : List Value)
    (prev : String) (cols : List String) (calls : List Int) :
    insertLoop r origNames args [] prev cols calls
      = Except.ok (prev, cols, [], calls) := rfl

lemma insertLoop_cons_iv_error {r : Config} {origNames : List String}
    {args : List Value} {row : List SqlExpr} {rest : List (List SqlExpr)}
    {prev : String} {cols : List String} {calls : List Int} {f : Fail}
    (hiv : insertValue r.shardingKey origNames row args = Except.error f) :
    insertLoop r origNames args (row :: rest) prev cols calls
      = Except.error f := by
  unfold insertLoop
  rw [hiv]

lemma insertLoop_cons_gs_error {r : Config} {origNames : List String}
    {args : List Value} {row : List SqlExpr} {rest : List (List SqlExpr)}
    {prev : String} {cols : List String} {calls : List Int}
    {v : Value} {id : Int} {kf : Bool} {f : Fail}
    (hiv : insertValue r.shardingKey origNames row args = Except.ok (v, id, kf))
    (hgs : getSuffix v id kf r = Except.error f) :
    insertLoop r origNames args (row :: rest) prev cols calls
      = Except.error f := by
  unfold insertLoop
  rw [hiv]
  simp only [hgs]

lemma insertLoop_cons_mismatch {r : Config} {origNames : List String}
    {args : List Value} {row : List SqlExpr} {rest : List (List SqlExpr)}
    {prev : String} {cols : List String} {calls : List Int}
    {v : Value} {id : Int} {kf : Bool} {sub : String}
    (hiv : insertValue r.shardingKey origNames row args = Except.ok (v, id, kf))
    (hgs : getSuffix v id kf r = Except.ok sub)
    (hne : prev ≠ "" ∧ prev ≠ sub) :
    insertLoop r origNames args (row :: rest) prev cols calls
      = Except.error (Fail.failed Err.insertDiffSuffix) := by
  unfold insertLoop
  rw [hiv]
  simp only [hgs, if_pos hne]

lemma insertLoop_cons_idx_none {r : Config} {origNames : List String}
    {args : List Value} {row : List SqlExpr} {rest : List (List SqlExpr)}
    {prev : String} {cols : List String} {calls : List Int}
    {v : Value} {id : Int} {kf : Bool} {sub : String}
    (hiv : insertValue r.shardingKey origNames row args = Except.ok (v, id, kf))
    (hgs : getSuffix v id kf r = Except.ok sub)
    (hnm : ¬(prev ≠ "" ∧ prev ≠ sub))
    (hidx : tblIdxOf r sub = none) :
    insertLoop r origNames args (row :: rest) prev cols calls
      = Except.error
          (Fail.failed (Err.suffixNotInShardingSuffixs (removeFirstUnderscore sub))) := by
  unfold insertLoop
  rw [hiv]
  simp only [hgs, if_neg hnm, hidx]

lemma insertLoop_cons_step {r : Config} {origNames : List String}
    {args : List Value} {row : List SqlExpr} {rest : List (List SqlExpr)}
    {prev : String} {cols : List String} {calls : List Int}
    {v : Value} {id : Int} {kf : Bool} {sub : String} {i : Int}
    (hiv : insertValue r.shardingKey origNames row args = Except.ok (v, id, kf))
    (hgs : getSuffix v id kf r = Except.ok sub)
    (hnm : ¬(prev ≠ "" ∧ prev ≠ sub))
    (hidx : tblIdxOf r sub = some i) :
    insertLoop r origNames args (row :: rest) prev cols calls
      = (match insertLoop r origNames args rest sub
            (if containsStr origNames "id" = false ∧ r.primaryKeyGeneratorFn i ≠ 0
             then origNames ++ ["id"] else cols)
            (calls ++ [i]) with
         | Except.error f => Except.error f
         | Except.ok (sfx, colsF, restF, callsF) =>
           Except.ok (sfx, colsF,
             (if containsStr origNames "id" = false ∧ r.primaryKeyGeneratorFn i ≠ 0
              then row ++ [SqlExpr.numberLit (toString (r.primaryKeyGeneratorFn i))]
              else row) :: restF, callsF)) := by
  conv_lhs => rw [insertLoop]
  rw [hiv]
  simp only [hgs, if_neg hnm, hidx]

lemma insertLoop_ne_msk_of_contains {r : Config} {origNames : List String}
    {args : List Value} (hc : containsStr origNames r.shardingKey = true) :
    ∀ (rows : List (List SqlExpr)) (prev : String) (cols : List String)
      (calls : List Int),
      insertLoop r origNames args rows prev cols calls
        ≠ Except.error (Fail.failed Err.missingShardingKey) := by
  intro rows
  induction rows with
  | nil =>
    intro prev cols calls
    rw [insertLoop_nil]
    simp
  | cons row rest ih =>
    intro prev cols calls h
    cases hiv : insertValue r.shardingKey origNames row args with
    | error f =>
      rw [insertLoop_cons_iv_error hiv] at h
      simp only [Except.error.injEq] at h
      subst h
      exact insertValue_contains_ne_msk hc hiv
    | ok viks =>
      obtain ⟨v, id, kf⟩ := viks
      cases hgs : getSuffix v id kf r with
      | error f =>
        rw [insertLoop_cons_gs_error hiv hgs] at h
        simp only [Except.error.injEq] at h
        subst h
        obtain ⟨er, hf, hne, -⟩ := getSuffix_error_shape hgs
        simp only [Fail.failed.injEq] at hf
        exact hne hf.symm
      | ok sub =>
        by_cases hne : prev ≠ "" ∧ prev ≠ sub
        · rw [insertLoop_cons_mismatch hiv hgs hne] at h
          exact absurd h (by simp)
        · cases hidx : tblIdxOf r sub with
          | none =>
            rw [insertLoop_cons_idx_none hiv hgs hne hidx] at h
            exact absurd h (by simp)
          | some i =>
            rw [insertLoop_cons_step hiv hgs hne hidx] at h
            cases hrec : insertLoop r origNames args rest sub
                (if containsStr origNames "id" = false ∧ r.primaryKeyGeneratorFn i ≠ 0
                 then origNames ++ ["id"] else cols)
                (calls ++ [i]) with
            | error f =>
              rw [hrec] at h
              simp only [Except.error.injEq] at h
              subst h
              exact ih sub _ _ hrec
            | ok out =>
              obtain ⟨sfx, colsF, restF, callsF⟩ := out
              rw [hrec] at h
              exact absurd h (by simp)

lemma rowSuffix_eq_error {r : Config} {names : List String} {args : List Value}
    {row : List SqlExpr} {f : Fail}
    (hiv : insertValue r.shardingKey names row args = Except.error f) :
    rowSuffix r names args row = Except.error f := by
  unfold rowSuffix
  rw [hiv]

lemma rowSuffix_eq_getSuffix {r : Config} {names : List String} {args : List Value}
    {row : List SqlExpr} {v : Value} {id : Int} {kf : Bool}
    (hiv : insertValue r.shardingKey names row args = Except.ok (v, id, kf)) :
    rowSuffix r names args row = getSuffix v id kf r := by
  unfold rowSuffix
  rw [hiv]

lemma insertLoop_diff {r : Config} {origNames : List String} {args : List Value} :
    ∀ (rows : List (List SqlExpr)) (prev : String) (cols : List String)
      (calls : List Int),
      (∀ row ∈ rows, ∃ s, rowSuffix r origNames args row = Except.ok s ∧ s ≠ ""
        ∧ tblIdxOf r s ≠ none) →
      ((∃ r1 ∈ rows, ∃ r2 ∈ rows,
          rowSuffix r origNames args r1 ≠ rowSuffix r origNames args r2)
        ∨ (prev ≠ "" ∧ ∃ r1 ∈ rows, rowSuffix r origNames args r1 ≠ Except.ok prev)) →
      insertLoop r origNames args rows prev cols calls
        = Except.error (Fail.failed Err.insertDiffSuffix) := by
  intro rows
  induction rows with
  | nil =>
    intro prev cols calls _ hdiff
    rcases hdiff with ⟨r1, hr1, -⟩ | ⟨-, r1, hr1, -⟩ <;> exact absurd hr1 (by simp)
  | cons row rest ih =>
    intro prev cols calls hall hdiff
    obtain ⟨s, hs, hsne, hidxne⟩ := hall row (by simp)
    cases hiv : insertValue r.shardingKey origNames row args with
    | error f =>
      rw [rowSuffix_eq_error hiv] at hs
      exact absurd hs (by simp)
    | ok viks =>
      obtain ⟨v, id, kf⟩ := viks
      have hgs : getSuffix v id kf r = Except.ok s := by
        rw [← rowSuffix_eq_getSuffix hiv]
        exact hs
      by_cases hne : prev ≠ "" ∧ prev ≠ s
      · rw [insertLoop_cons_mismatch hiv hgs hne]
      · cases hidx : tblIdxOf r s with
        | none => exact absurd hidx hidxne
        | some i =>
          have hall' : ∀ row' ∈ rest, ∃ s', rowSuffix r origNames args row'
              = Except.ok s' ∧ s' ≠ "" ∧ tblIdxOf r s' ≠ none :=
            fun row' hrow' => hall row' (List.mem_cons_of_mem _ hrow')
          have hdiff' : (∃ r1 ∈ rest, ∃ r2 ∈ rest,
              rowSuffix r origNames args r1 ≠ rowSuffix r origNames args r2)
            ∨ (s ≠ "" ∧ ∃ r1 ∈ rest,
                rowSuffix r origNames args r1 ≠ Except.ok s) := by
            rcases hdiff with ⟨r1, hr1, r2, hr2, hne12⟩ | ⟨hprev, r1, hr1, hner1⟩
            · rcases List.mem_cons.mp hr1 with rfl | hr1'
              · rcases List.mem_cons.mp hr2 with rfl | hr2'
                · exact absurd rfl hne12
                · exact Or.inr ⟨hsne, r2, hr2', fun hc => hne12 (by rw [hs, hc])⟩
              · rcases List.mem_cons.mp hr2 with rfl | hr2'
                · exact Or.inr ⟨hsne, r1, hr1', fun hc => hne12 (by rw [hc, hs])⟩
                · by_cases hc1 : rowSuffix r origNames args r1 = Except.ok s
                  · exact Or.inr ⟨hsne, r2, hr2', fun hc2 => hne12 (by rw [hc1, hc2])⟩
                  · exact Or.inr ⟨hsne, r1, hr1', hc1⟩
            · have hprevs : prev = s := by
                by_cases hps : prev = s
                · exact hps
                · exact absurd ⟨hprev, hps⟩ hne
              rcases List.mem_cons.mp hr1 with rfl | hr1'
              · exact absurd (hs.trans (by rw [hprevs])) hner1
              · exact Or.inr ⟨hsne, r1, hr1', by rw [← hprevs]; exact hner1⟩
          have hLoop := ih s
            (if containsStr origNames "id" = false ∧ r.primaryKeyGeneratorFn i ≠ 0
             then origNames ++ ["id"] else cols)
            (calls ++ [i]) hall' hdiff'
          rw [insertLoop_cons_step hiv hgs hne hidx]
          simp only [hLoop]

lemma insertLoop_no_panic {r : Config} {origNames : List String}
    {args : List Value} :
    ∀ (rows : List (List SqlExpr)) (prev : String) (cols : List String)
      (calls : List Int),
      (∀ row ∈ rows, rowBindOK r.shardingKey args.length origNames row = true) →
      insertLoop r origNames args rows prev cols calls
        ≠ Except.error Fail.panicked := by
  intro rows
  induction rows with
  | nil =>
    intro prev cols calls _
    rw [insertLoop_nil]
    simp
  | cons row rest ih =>
    intro prev cols calls hall h
    cases hiv : insertValue r.shardingKey origNames row args with
    | error f =>
      rw [insertLoop_cons_iv_error hiv] at h
      simp only [Except.error.injEq] at h
      subst h
      exact insertValue_no_panic (hall row (by simp)) hiv
    | ok viks =>
      obtain ⟨v, id, kf⟩ := viks
      cases hgs : getSuffix v id kf r with
      | error f =>
        rw [insertLoop_cons_gs_error hiv hgs] at h
        simp only [Except.error.injEq] at h
        subst h
        exact getSuffix_no_panic hgs
      | ok sub =>
        by_cases hne : prev ≠ "" ∧ prev ≠ sub
        · rw [insertLoop_cons_mismatch hiv hgs hne] at h
          exact absurd h (by simp)
        · cases hidx : tblIdxOf r sub with
          | none =>
            rw [insertLoop_cons_idx_none hiv hgs hne hidx] at h
            exact absurd h (by simp)
          | some i =>
            rw [insertLoop_cons_step hiv hgs hne hidx] at h
            cases hrec : insertLoop r origNames args rest sub
                (if containsStr origNames "id" = false ∧ r.primaryKeyGeneratorFn i ≠ 0
                 then origNames ++ ["id"] else cols)
                (calls ++ [i]) with
            | error f =>
              rw [hrec] at h
              simp only [Except.error.injEq] at h
              subst h
              exact ih sub _ _ (fun row' hrow' => hall row' (List.mem_cons_of_mem _ hrow')) hrec
            | ok out =>
              obtain ⟨sfx, colsF, restF, callsF⟩ := out
              rw [hrec] at h
              exact absurd h (by simp)

lemma resolve_fail_shape {configs : Configs} {parsed : Option Stmt}
    {args : List Value} {ft st : QueryOut} {tn : String} {e : Err}
    (h : resolve configs parsed args = RRes.fail ft st tn e) :
    ft = QueryOut.original ∧ st = QueryOut.original := by
  unfold resolve at h
  split at h
  · exact absurd h (by simp)
  · split at h
    · exact absurd h (by simp)
    · simp only [RRes.fail.injEq] at h
      exact ⟨h.1.symm, h.2.1.symm⟩
    · split at h
      · exact absurd h (by simp)
      · split at h
        · exact absurd h (by simp)
        · split at h
          · exact absurd h (by simp)
          · have := wrapFail_fail_iff.mp h
            exact ⟨this.2.1, this.2.2.1⟩
    · split at h
      · exact absurd h (by simp)
      · have := wrapFail_fail_iff.mp h
        exact ⟨this.2.1, this.2.2.1⟩
    · split at h
      · exact absurd h (by simp)
      · have := wrapFail_fail_iff.mp h
        exact ⟨this.2.1, this.2.2.1⟩
    · split at h
      · exact absurd h (by simp)
      · have := wrapFail_fail_iff.mp h
        exact ⟨this.2.1, this.2.2.1⟩

/-! ### Claim theorems -/

/-- Claim C5 (confirmed): for every parsed statement that references a table
(the four recognised statement kinds) whose table is not registered, `resolve`
returns the input text byte-identical as both renderings, with no error and
no primary-key generator call. -/
theorem unregistered_table_passthrough :
    ∀ (configs : Configs) (stmt : Stmt) (tn : String) (args : List Value),
      stmtTable stmt = some tn → configs.lookup tn = none →
      ∃ tn', resolve configs (some stmt) args
        = RRes.ok QueryOut.original QueryOut.original tn' [] := by
  intro configs stmt tn args htbl hlook
  by_cases hc : configs.isEmpty
  · exact ⟨"", by unfold resolve; rw [if_pos hc]⟩
  · cases stmt with
    | select s =>
      rw [show stmtTable (Stmt.select s) = s.fromTable from rfl] at htbl
      by_cases hh : s.hint = some "nosharding"
      · exact ⟨"", by unfold resolve; rw [if_neg hc]; simp [htbl, hh]⟩
      · exact ⟨tn, by unfold resolve; rw [if_neg hc]; simp [htbl, hh, hlook]⟩
    | insert i =>
      rw [show stmtTable (Stmt.insert i) = some i.tableName from rfl] at htbl
      simp only [Option.some.injEq] at htbl
      subst htbl
      exact ⟨i.tableName, by unfold resolve; rw [if_neg hc]; simp [hlook]⟩
    | update u =>
      rw [show stmtTable (Stmt.update u) = some u.tableName from rfl] at htbl
      simp only [Option.some.injEq] at htbl
      subst htbl
      exact ⟨u.tableName, by unfold resolve; rw [if_neg hc]; simp [hlook]⟩
    | delete d =>
      rw [show stmtTable (Stmt.delete d) = some d.tableName from rfl] at htbl
      simp only [Option.some.injEq] at htbl
      subst htbl
      exact ⟨d.tableName, by unfold resolve; rw [if_neg hc]; simp [hlook]⟩
    | other => simp [stmtTable] at htbl

/-- Witness for C5: an update on the unregistered `users` table passes
through untouched under the `orders`-only registry. -/
theorem unregistered_table_passthrough_witness :
    ∃ tn', resolve configsA (some stmtUpdUnregistered) []
      = RRes.ok QueryOut.original QueryOut.original tn' [] :=
  unregistered_table_passthrough configsA stmtUpdUnregistered "users" [] rfl rfl

/-- Claim C7 (confirmed): a select carrying the `nosharding` hint resolves to
the input unchanged (both renderings are the original text, no error), for
any registry — registered table or not. -/
theorem nosharding_hint_passthrough :
    ∀ (configs : Configs) (s : SelectStmt) (args : List Value),
      s.hint = some "nosharding" →
      resolve configs (some (Stmt.select s)) args
        = RRes.ok QueryOut.original QueryOut.original "" [] := by
  intro configs s args hh
  unfold resolve
  split
  · rfl
  · cases hft : s.fromTable with
    | none => simp [hft]
    | some tn => simp [hft, hh]

/-- Witness for C7: `SELECT /* nosharding */ * FROM orders` against the
registry that shards `orders`. -/
theorem nosharding_hint_passthrough_witness :
    resolve configsA (some stmtSelHint) []
      = RRes.ok QueryOut.original QueryOut.original "" [] :=
  nosharding_hint_passthrough configsA
    ⟨some "orders", some "nosharding", none, []⟩ [] rfl

/-- Claim C6 counterexample: the default algorithm does not satisfy
`suffix(k) = suffix(k + NumberOfShards)` for every integer `k` — Go's `%`
truncates toward zero, so `k = -3` with 4 shards yields `_-3` while
`-3 + 4 = 1` yields `_1`. -/
theorem default_algorithm_negative_shift :
    defaultShardingAlgorithm 4 (Value.vInt (-3)) = Except.ok "_-3"
    ∧ defaultShardingAlgorithm 4 (Value.vInt (-3 + 4)) = Except.ok "_1"
    ∧ ("_-3" : String) ≠ "_1" := by
  refine ⟨rfl, rfl, by decide⟩

/-- Claim C6 (amended): for every config compiled with the default sharding
algorithm and `NumberOfShards = N > 0`, and every nonnegative integer `k`
(as a Go `int` or `int64`), the suffix of `k` equals the suffix of `k + N`.
(For negative `k` the property fails, see the counterexample.) -/
theorem default_algorithm_period :
    ∀ (key : String) (shards : Nat) (dw : Bool) (pk : Int → Int) (k : Int),
      0 < shards → 0 ≤ k →
      (mkDefaultConfig key shards dw pk).shardingAlgorithm (Value.vInt k)
        = (mkDefaultConfig key shards dw pk).shardingAlgorithm
            (Value.vInt (k + shards))
      ∧ (mkDefaultConfig key shards dw pk).shardingAlgorithm (Value.vInt64 k)
        = (mkDefaultConfig key shards dw pk).shardingAlgorithm
            (Value.vInt64 (k + shards)) := by
  intro key N dw pk k hN hk
  have h1 : Int.tmod k N = k % N :=
    Int.tmod_eq_emod hk (by exact_mod_cast Nat.zero_le N)
  have h2 : Int.tmod (k + N) N = (k + N) % N :=
    Int.tmod_eq_emod (by omega) (by exact_mod_cast Nat.zero_le N)
  have h3 : (k + (N : Int)) % N = k % N := by
    have h := Int.add_mul_emod_self_left k (N : Int) 1
    rw [mul_one] at h
    exact h
  constructor <;>
    simp only [mkDefaultConfig, defaultShardingAlgorithm] <;>
    rw [h1, h2, h3]

/-- Witness for C6: with 4 shards, 100 and 104 share the suffix `_0`. -/
theorem default_algorithm_period_witness :
    (mkDefaultConfig "user_id" 4 false pkZero).shardingAlgorithm (Value.vInt 100)
      = (mkDefaultConfig "user_id" 4 false pkZero).shardingAlgorithm
          (Value.vInt (100 + 4)) :=
  (default_algorithm_period "user_id" 4 false pkZero 100 (by decide) (by decide)).1

/-- Claim C1 counterexample: for `SELECT * FROM orders` (no condition) the
resolver fails with MissingShardingKey, yet `QueryRowContext` returns no
error and issues the row query with the unmodified input against the chosen
connection — the error is neither propagated nor does it prevent execution. -/
theorem queryRowContext_executes_on_resolver_error :
    resolve configsA (some stmtSelNoCond) []
      = RRes.fail QueryOut.original QueryOut.original "orders" Err.missingShardingKey
    ∧ queryRowContext configsA (some stmtSelNoCond) []
      = RouterResult.ok [RouterCall.queryRowOnChosen QueryOut.original] :=
  ⟨rfl, rfl⟩

/-- Claim C1 (amended): when the resolver returns an error, `ExecContext` and
`QueryContext` propagate it with no call to any underlying connection;
`QueryRowContext` however discards the error and executes the row query with
the unmodified input text (every failing resolution leaves both renderings at
the original input). -/
theorem resolver_error_router_behavior :
    ∀ (configs : Configs) (parsed : Option Stmt) (args : List Value)
      (ft st : QueryOut) (tn : String) (e : Err),
      resolve configs parsed args = RRes.fail ft st tn e →
      ft = QueryOut.original ∧ st = QueryOut.original
      ∧ execContext configs parsed args = RouterResult.err e []
      ∧ queryContext configs parsed args = RouterResult.err e []
      ∧ queryRowContext configs parsed args
          = RouterResult.ok [RouterCall.queryRowOnChosen QueryOut.original] := by
  intro configs parsed args ft st tn e h
  obtain ⟨hft, hst⟩ := resolve_fail_shape h
  subst hft
  subst hst
  refine ⟨rfl, rfl, ?_, ?_, ?_⟩
  · unfold execContext
    simp only [h]
  · unfold queryContext
    simp only [h]
  · unfold queryRowContext
    simp only [h]

/-- Witness for C1: the MissingShardingKey failure of `SELECT * FROM orders`
is propagated by exec/query and swallowed by query-row. -/
theorem resolver_error_router_behavior_witness :
    QueryOut.original = QueryOut.original ∧ QueryOut.original = QueryOut.original
    ∧ execContext configsA (some stmtSelNoCond) []
        = RouterResult.err Err.missingShardingKey []
    ∧ queryContext configsA (some stmtSelNoCond) []
        = RouterResult.err Err.missingShardingKey []
    ∧ queryRowContext configsA (some stmtSelNoCond) []
        = RouterResult.ok [RouterCall.queryRowOnChosen QueryOut.original] :=
  resolver_error_router_behavior configsA (some stmtSelNoCond) []
    QueryOut.original QueryOut.original "orders" Err.missingShardingKey rfl

/-- The non-insert resolution pipeline — value extraction followed by suffix
computation — fails with MissingShardingKey exactly when the condition walk
completes with no sharding-key equality found and a zero id. -/
lemma nonInsert_pipeline_msk_iff (key : String) (cond : Option SqlExpr)
    (args : List Value) (r : Config)
    (mk : String → QueryOut × QueryOut × String × List Int) :
    (match nonInsertValue key cond args with
     | Except.error f => Except.error f
     | Except.ok (v, id, kf) =>
       match getSuffix v id kf r with
       | Except.error f => Except.error f
       | Except.ok suffix => Except.ok (mk suffix))
      = Except.error (Fail.failed Err.missingShardingKey)
    ↔ ∃ st, walkCond key args cond = Except.ok st
        ∧ st.keyFind = false ∧ st.id = 0 := by
  cases hniv : nonInsertValue key cond args with
  | error f =>
    constructor
    · intro h
      simp only [Except.error.injEq] at h
      subst h
      exact (nonInsertValue_msk_iff key cond args).mp hniv
    · intro hex
      have hmsk := (nonInsertValue_msk_iff key cond args).mpr hex
      rw [hniv] at hmsk
      simp only [Except.error.injEq] at hmsk
      rw [hmsk]
  | ok viks =>
    obtain ⟨v, id, kf⟩ := viks
    show (match getSuffix v id kf r with
          | Except.error f =>
            (Except.error f : Except Fail (QueryOut × QueryOut × String × List Int))
          | Except.ok suffix => Except.ok (mk suffix))
        = Except.error (Fail.failed Err.missingShardingKey)
      ↔ ∃ st, walkCond key args cond = Except.ok st
          ∧ st.keyFind = false ∧ st.id = 0
    constructor
    · intro h
      cases hgs : getSuffix v id kf r with
      | error f =>
        rw [hgs] at h
        simp only [Except.error.injEq] at h
        subst h
        obtain ⟨er, hf, hne, -⟩ := getSuffix_error_shape hgs
        simp only [Fail.failed.injEq] at hf
        exact absurd hf.symm hne
      | ok suffix =>
        rw [hgs] at h
        exact absurd h (by simp)
    · intro hex
      have hmsk := (nonInsertValue_msk_iff key cond args).mpr hex
      rw [hniv] at hmsk
      exact absurd hmsk (by simp)

/-- Claim C2 counterexample: a filter that does contain a top-level `=` on
`id` — namely `id = 0` — still fails with MissingShardingKey, so "fails
exactly when neither equality is present" is false as stated. -/
theorem missing_key_error_despite_id_equality :
    hasEqOn "id" condIdZero = true
    ∧ resolve configsA (some stmtDelIdZero) []
      = RRes.fail QueryOut.original QueryOut.original "orders"
          Err.missingShardingKey :=
  ⟨by decide, rfl⟩

/-- Claim C2 (amended): on a registered table, resolve fails with
MissingShardingKey as follows. Insert (nonempty rows, first row matching the
column count): exactly when the sharding-key column is absent from the column
list. Select/Update/Delete: exactly when the condition walk completes without
error, finds no `=` on the sharding-key column, and accumulates id value `0`
(an `id = 0` equality is indistinguishable from no id equality; a later id
equality overwrites an earlier one). The walk finds a sharding-key equality
if and only if the condition tree contains a supported top-level `=` on that
column (final conjunct). -/
theorem missingShardingKey_characterization :
    (∀ (configs : Configs) (r : Config) (tn : String) (names : List String)
        (row : List SqlExpr) (rest : List (List SqlExpr)) (args : List Value),
        configs.lookup tn = some r → names.length = row.length →
        (failsWith
            (resolve configs (some (Stmt.insert ⟨tn, names, row :: rest⟩)) args)
            Err.missingShardingKey
          ↔ containsStr names r.shardingKey = false))
    ∧ (∀ (configs : Configs) (r : Config) (tn : String) (hint : Option String)
        (cond : Option SqlExpr) (ob : List OrderTerm) (args : List Value),
        configs.lookup tn = some r → hint ≠ some "nosharding" →
        (failsWith
            (resolve configs (some (Stmt.select ⟨some tn, hint, cond, ob⟩)) args)
            Err.missingShardingKey
          ↔ ∃ st, walkCond r.shardingKey args cond = Except.ok st
              ∧ st.keyFind = false ∧ st.id = 0))
    ∧ (∀ (configs : Configs) (r : Config) (tn : String)
        (asg : List (String × SqlExpr)) (cond : Option SqlExpr) (args : List Value),
        configs.lookup tn = some r →
        (failsWith
            (resolve configs (some (Stmt.update ⟨tn, asg, cond⟩)) args)
            Err.missingShardingKey
          ↔ ∃ st, walkCond r.shardingKey args cond = Except.ok st
              ∧ st.keyFind = false ∧ st.id = 0))
    ∧ (∀ (configs : Configs) (r : Config) (tn : String) (cond : Option SqlExpr)
        (args : List Value),
        configs.lookup tn = some r →
        (failsWith
            (resolve configs (some (Stmt.delete ⟨tn, cond⟩)) args)
            Err.missingShardingKey
          ↔ ∃ st, walkCond r.shardingKey args cond = Except.ok st
              ∧ st.keyFind = false ∧ st.id = 0))
    ∧ (∀ (key : String) (args : List Value) (cond : Option SqlExpr)
        (st : WalkState),
        walkCond key args cond = Except.ok st →
        st.keyFind = hasCondEqOn key cond) := by
  refine ⟨?_, ?_, ?_, ?_, fun key args cond st h => walkCond_keyFind h⟩
  · intro configs r tn names row rest args hr hlen
    rw [resolve_insert_eq hr]
    rw [failsWith_wrapFail]
    constructor
    · intro h
      by_contra hcontains
      have hc : containsStr names r.shardingKey = true := by
        revert hcontains
        cases containsStr names r.shardingKey <;> simp
      unfold insertResolve at h
      cases hl : insertLoop r names args (row :: rest) "" names [] with
      | error f =>
        simp only [hl] at h
        simp only [Except.error.injEq] at h
        subst h
        exact insertLoop_ne_msk_of_contains hc (row :: rest) "" names [] hl
      | ok out =>
        obtain ⟨sfx, colsF, restF, callsF⟩ := out
        simp only [hl] at h
        exact absurd h (by simp)
    · intro hc
      have hiv := @insertValue_msk_of_not_contains r.shardingKey names row args hc hlen
      unfold insertResolve
      simp only [insertLoop_cons_iv_error hiv]
  · intro configs r tn hint cond ob args hr hh
    rw [resolve_select_eq rfl hh hr]
    rw [failsWith_wrapFail]
    exact nonInsert_pipeline_msk_iff r.shardingKey cond args r _
  · intro configs r tn asg cond args hr
    rw [resolve_update_eq hr]
    rw [failsWith_wrapFail]
    exact nonInsert_pipeline_msk_iff r.shardingKey cond args r _
  · intro configs r tn cond args hr
    rw [resolve_delete_eq hr]
    rw [failsWith_wrapFail]
    exact nonInsert_pipeline_msk_iff r.shardingKey cond args r _

/-- Witness for C2: `INSERT INTO orders (product) VALUES ('iPad')` omits the
`user_id` sharding key and fails with MissingShardingKey. -/
theorem missingShardingKey_characterization_witness :
    failsWith
      (resolve configsA
        (some (Stmt.insert ⟨"orders", ["product"], [[SqlExpr.stringLit "iPad"]]⟩)) [])
      Err.missingShardingKey :=
  (missingShardingKey_characterization.1 configsA cfgOrders "orders"
    ["product"] [SqlExpr.stringLit "iPad"] [] [] rfl rfl).mpr (by decide)

/-- Claim C9 (confirmed): a filter whose only id equalities carry the value
zero (literal `0` or an `int64 0` bind argument) and which has no equality on
the sharding key fails with MissingShardingKey on all three non-insert
statement kinds, even though an id equality is present. -/
theorem id_zero_missing_sharding_key :
    ∀ (configs : Configs) (r : Config) (tn : String) (cond : SqlExpr)
      (args : List Value) (hint : Option String) (ob : List OrderTerm)
      (asg : List (String × SqlExpr)),
      configs.lookup tn = some r →
      zeroIdOnly r.shardingKey args cond = true →
      hasEqOn "id" cond = true →
      hint ≠ some "nosharding" →
      resolve configs (some (Stmt.select ⟨some tn, hint, some cond, ob⟩)) args
        = RRes.fail QueryOut.original QueryOut.original tn Err.missingShardingKey
      ∧ resolve configs (some (Stmt.update ⟨tn, asg, some cond⟩)) args
        = RRes.fail QueryOut.original QueryOut.original tn Err.missingShardingKey
      ∧ resolve configs (some (Stmt.delete ⟨tn, some cond⟩)) args
        = RRes.fail QueryOut.original QueryOut.original tn Err.missingShardingKey := by
  intro configs r tn cond args hint ob asg hr hz hid hh
  have hwalk : walkCond r.shardingKey args (some cond) = Except.ok initWalkState :=
    walkExpr_zero r.shardingKey args cond hz
  have hniv : nonInsertValue r.shardingKey (some cond) args
      = Except.error (Fail.failed Err.missingShardingKey) := by
    rw [nonInsertValue_of_walk_ok hwalk]
    rw [if_pos ⟨rfl, rfl⟩]
  refine ⟨?_, ?_, ?_⟩
  · rw [resolve_select_eq rfl hh hr]
    unfold selectResolve
    simp only [hniv]
    rfl
  · rw [resolve_update_eq hr]
    unfold updateResolve
    simp only [hniv]
    rfl
  · rw [resolve_delete_eq hr]
    unfold deleteResolve
    simp only [hniv]
    rfl

/-- Witness for C9: `DELETE FROM orders WHERE id = 0` fails with
MissingShardingKey although the filter contains an id equality. -/
theorem id_zero_missing_sharding_key_witness :
    resolve configsA (some (Stmt.delete ⟨"orders", some condIdZero⟩)) []
      = RRes.fail QueryOut.original QueryOut.original "orders"
          Err.missingShardingKey :=
  (id_zero_missing_sharding_key configsA cfgOrders "orders" condIdZero []
    none [] [] rfl (by decide) (by decide) (by simp)).2.2

/-- Claim C3 counterexample: under a custom algorithm whose suffix for the
first row is the empty string, two rows yield different suffixes (`""` and
`"_1"`) yet resolve succeeds — the mismatch check is skipped while the
previous row's suffix is empty — and both rows are routed to `orders_1`. -/
theorem insert_diff_suffix_not_detected_empty_suffix :
    rowSuffix cfgEmptySuffix ["user_id"] [] rowSeven = Except.ok ""
    ∧ rowSuffix cfgEmptySuffix ["user_id"] [] rowOne = Except.ok "_1"
    ∧ ("" : String) ≠ "_1"
    ∧ resolve configsC (some (Stmt.insert insTwoRows)) []
      = RRes.ok (QueryOut.insertQ ⟨"orders", ["user_id"], [rowSeven, rowOne]⟩)
          (QueryOut.insertQ ⟨"orders_1", ["user_id"], [rowSeven, rowOne]⟩)
          "orders" [0, 1] :=
  ⟨rfl, rfl, by decide, rfl⟩

/-- Claim C3 (amended): on a registered table, when every value row's suffix
computes successfully, is non-empty, and admits a shard index, a multi-row
insert whose rows yield two different suffixes fails with ErrInsertDiffSuffix
and the router's `ExecContext` executes nothing against the datastore. (The
check only compares against the previous row's suffix and treats the empty
suffix as "none yet", hence the non-emptiness proviso — see the
counterexample.) -/
theorem insert_diff_suffix_detected :
    ∀ (configs : Configs) (r : Config) (tn : String) (names : List String)
      (rows : List (List SqlExpr)) (args : List Value),
      configs.lookup tn = some r →
      (∀ row ∈ rows, ∃ s, rowSuffix r names args row = Except.ok s ∧ s ≠ ""
        ∧ tblIdxOf r s ≠ none) →
      (∃ r1 ∈ rows, ∃ r2 ∈ rows,
        rowSuffix r names args r1 ≠ rowSuffix r names args r2) →
      resolve configs (some (Stmt.insert ⟨tn, names, rows⟩)) args
        = RRes.fail QueryOut.original QueryOut.original tn Err.insertDiffSuffix
      ∧ execContext configs (some (Stmt.insert ⟨tn, names, rows⟩)) args
        = RouterResult.err Err.insertDiffSuffix [] := by
  intro configs r tn names rows args hr hall hdiff
  cases rows with
  | nil =>
    obtain ⟨r1, hr1, -⟩ := hdiff
    exact absurd hr1 (by simp)
  | cons row rest =>
    have hloop := insertLoop_diff (row :: rest) "" names [] hall (Or.inl hdiff)
    have hres : resolve configs (some (Stmt.insert ⟨tn, names, row :: rest⟩)) args
        = RRes.fail QueryOut.original QueryOut.original tn Err.insertDiffSuffix := by
      rw [resolve_insert_eq hr]
      rw [show insertResolve r ⟨tn, names, row :: rest⟩ args
            = Except.error (Fail.failed Err.insertDiffSuffix) from by
        unfold insertResolve
        simp only [hloop]]
      rfl
    refine ⟨hres, ?_⟩
    unfold execContext
    simp only [hres]

/-- Witness for C3: a two-row insert on the default 4-shard config with
`user_id` 100 and 101 fails with ErrInsertDiffSuffix and executes nothing. -/
theorem insert_diff_suffix_detected_witness :
    resolve configsA (some (Stmt.insert ⟨"orders", ["user_id"],
        [[SqlExpr.numberLit "100"], [SqlExpr.numberLit "101"]]⟩)) []
      = RRes.fail QueryOut.original QueryOut.original "orders" Err.insertDiffSuffix
    ∧ execContext configsA (some (Stmt.insert ⟨"orders", ["user_id"],
        [[SqlExpr.numberLit "100"], [SqlExpr.numberLit "101"]]⟩)) []
      = RouterResult.err Err.insertDiffSuffix [] := by
  apply insert_diff_suffix_detected configsA cfgOrders "orders" ["user_id"]
    [[SqlExpr.numberLit "100"], [SqlExpr.numberLit "101"]] [] rfl
  · intro row hrow
    simp only [List.mem_cons, List.not_mem_nil, or_false] at hrow
    rcases hrow with rfl | rfl
    · exact ⟨"_0", rfl, by decide, by decide⟩
    · exact ⟨"_1", rfl, by decide, by decide⟩
  · exact ⟨[SqlExpr.numberLit "100"], by simp, [SqlExpr.numberLit "101"],
      by simp, by decide⟩

/-- Claim C4 counterexample: on an insert that already supplies an `id`
column, the primary-key generator is still invoked (the generator-call log is
`[0]`, not empty), contradicting "called only when the statement does not
already supply an id column"; only the appending of the generated id is
skipped. -/
theorem pk_generator_called_with_id_column :
    containsStr ["user_id", "id"] "id" = true
    ∧ resolve configsB (some (Stmt.insert insWithId)) []
      = RRes.ok (QueryOut.insertQ insWithId)
          (QueryOut.insertQ ⟨"orders_0", ["user_id", "id"],
            [[SqlExpr.numberLit "100", SqlExpr.numberLit "5"]]⟩)
          "orders" [0] :=
  ⟨rfl, rfl⟩

/-- Claim C4 (amended): on a single-row insert on a registered table whose
row resolves to suffix `s` with shard index `i` (trailing digits of the
stripped suffix, else its position in the suffix list), the primary-key
generator is called exactly once with `i` regardless of an existing `id`
column; the pair `(id, generatedValue)` is appended to the column and value
lists only when no `id` column is present and the generated value is nonzero,
otherwise the statement is left unchanged. -/
theorem insert_pk_autofill :
    ∀ (configs : Configs) (r : Config) (tn : String) (names : List String)
      (row : List SqlExpr) (args : List Value) (v : Value) (idv : Int)
      (kf : Bool) (s : String) (i : Int),
      configs.lookup tn = some r →
      insertValue r.shardingKey names row args = Except.ok (v, idv, kf) →
      getSuffix v idv kf r = Except.ok s →
      tblIdxOf r s = some i →
      resolve configs (some (Stmt.insert ⟨tn, names, [row]⟩)) args
        = (if containsStr names "id" = false ∧ r.primaryKeyGeneratorFn i ≠ 0 then
            RRes.ok
              (QueryOut.insertQ ⟨tn, names ++ ["id"],
                [row ++ [SqlExpr.numberLit (toString (r.primaryKeyGeneratorFn i))]]⟩)
              (QueryOut.insertQ ⟨tn ++ s, names ++ ["id"],
                [row ++ [SqlExpr.numberLit (toString (r.primaryKeyGeneratorFn i))]]⟩)
              tn [i]
          else
            RRes.ok (QueryOut.insertQ ⟨tn, names, [row]⟩)
              (QueryOut.insertQ ⟨tn ++ s, names, [row]⟩) tn [i]) := by
  intro configs r tn names row args v idv kf s i hr hiv hgs hidx
  rw [resolve_insert_eq hr]
  have hstep := @insertLoop_cons_step r names args row [] "" names [] v idv kf s i
    hiv hgs (by simp) hidx
  unfold insertResolve
  by_cases hc : containsStr names "id" = false ∧ r.primaryKeyGeneratorFn i ≠ 0
  · rw [if_pos hc]
    simp only [hstep, if_pos hc, insertLoop_nil, List.nil_append]
    rfl
  · rw [if_neg hc]
    simp only [hstep, if_neg hc, insertLoop_nil, List.nil_append]
    rfl

/-- Witness for C4: `INSERT INTO orders (user_id) VALUES (100)` with the
generator `100 + i` gets `(id, 100)` appended and is routed to `orders_0`. -/
theorem insert_pk_autofill_witness :
    resolve configsB (some (Stmt.insert ⟨"orders", ["user_id"],
        [[SqlExpr.numberLit "100"]]⟩)) []
      = RRes.ok
          (QueryOut.insertQ ⟨"orders", ["user_id", "id"],
            [[SqlExpr.numberLit "100", SqlExpr.numberLit "100"]]⟩)
          (QueryOut.insertQ ⟨"orders_0", ["user_id", "id"],
            [[SqlExpr.numberLit "100", SqlExpr.numberLit "100"]]⟩)
          "orders" [0] := by
  have h := insert_pk_autofill configsB cfgOrdersPk "orders" ["user_id"]
    [SqlExpr.numberLit "100"] [] (Value.vStr "100") 0 true "_0" 0 rfl rfl rfl rfl
  rw [if_pos ⟨by decide, by decide⟩] at h
  exact h

/-- Claim C8 counterexample: an id equality whose value is not
integer-parseable — a bind argument holding the string `"abc"` — fails not
with ErrInvalidID but with the distinct "ID should be int64 type" error. -/
theorem invalid_id_error_kind_mismatch :
    goAtoi "abc" = none
    ∧ resolve configsA (some stmtDelIdBind) [Value.vStr "abc"]
      = RRes.fail QueryOut.original QueryOut.original "orders" Err.idShouldBeInt64
    ∧ Err.idShouldBeInt64 ≠ Err.invalidID :=
  ⟨rfl, rfl, by decide⟩

/-- Claim C8 (amended): for a delete on a registered table (sharding key not
named `id`) whose filter is a top-level `id = <value>` equality, the error
depends on the value's syntactic shape: any expression other than a bind
parameter or number literal (including an integer-parseable string literal)
fails with ErrInvalidID; a bind argument that is not an `int64` fails with
the "ID should be int64 type" error; a number literal that does not parse as
an `int64` surfaces the integer-parse error. -/
theorem id_value_error_kinds :
    ∀ (configs : Configs) (r : Config) (tn : String) (args : List Value)
      (y : SqlExpr),
      configs.lookup tn = some r → r.shardingKey ≠ "id" →
      ((isBindOrNumber y = false →
        resolve configs (some (Stmt.delete ⟨tn,
            some (SqlExpr.binary (SqlExpr.ident "id") BinOp.eq y)⟩)) args
          = RRes.fail QueryOut.original QueryOut.original tn Err.invalidID)
      ∧ (∀ str, y = SqlExpr.numberLit str → goParseInt64 str = none →
          resolve configs (some (Stmt.delete ⟨tn,
              some (SqlExpr.binary (SqlExpr.ident "id") BinOp.eq y)⟩)) args
            = RRes.fail QueryOut.original QueryOut.original tn Err.idParseIntError)
      ∧ (∀ p v, y = SqlExpr.bindExpr p → args.get? p = some v →
          (∀ n, v ≠ Value.vInt64 n) →
          resolve configs (some (Stmt.delete ⟨tn,
              some (SqlExpr.binary (SqlExpr.ident "id") BinOp.eq y)⟩)) args
            = RRes.fail QueryOut.original QueryOut.original tn
                Err.idShouldBeInt64)) := by
  intro configs r tn args y hr hkey
  have hk : ¬(("id" : String) = r.shardingKey) := fun hc => hkey hc.symm
  have hpipe : ∀ (y' : SqlExpr) (f : Err),
      visitNode r.shardingKey args initWalkState
          (SqlExpr.binary (SqlExpr.ident "id") BinOp.eq y')
        = Except.error (Fail.failed f) →
      resolve configs (some (Stmt.delete ⟨tn,
          some (SqlExpr.binary (SqlExpr.ident "id") BinOp.eq y')⟩)) args
        = RRes.fail QueryOut.original QueryOut.original tn f := by
    intro y' f hv
    have hw : walkCond r.shardingKey args
        (some (SqlExpr.binary (SqlExpr.ident "id") BinOp.eq y'))
          = Except.error (Fail.failed f) := by
      rw [show walkCond r.shardingKey args
            (some (SqlExpr.binary (SqlExpr.ident "id") BinOp.eq y'))
          = walkExpr r.shardingKey args
              (SqlExpr.binary (SqlExpr.ident "id") BinOp.eq y') initWalkState
          from rfl]
      unfold walkExpr
      simp only [hv]
    rw [resolve_delete_eq hr]
    rw [show deleteResolve r ⟨tn,
          some (SqlExpr.binary (SqlExpr.ident "id") BinOp.eq y')⟩ args
        = Except.error (Fail.failed f) from by
      unfold deleteResolve
      simp only [nonInsertValue_of_walk_error hw]]
    rfl
  refine ⟨?_, ?_, ?_⟩
  · intro hy
    apply hpipe
    cases y with
    | bindExpr p => simp [isBindOrNumber] at hy
    | numberLit str => simp [isBindOrNumber] at hy
    | ident m => simp [visitNode, hk]
    | stringLit str => simp [visitNode, hk]
    | binary a o b => simp [visitNode, hk]
    | paren a => simp [visitNode, hk]
    | otherExpr => simp [visitNode, hk]
  · intro str hy hparse
    subst hy
    apply hpipe
    simp [visitNode, hk, hparse]
  · intro p v hy hget hnv
    subst hy
    apply hpipe
    rw [List.get?_eq_getElem?] at hget
    cases v with
    | vInt64 n => exact absurd rfl (hnv n)
    | vInt n => simp [visitNode, hk, getArg, hget]
    | vStr str => simp [visitNode, hk, getArg, hget]
    | vNil => simp [visitNode, hk, getArg, hget]
    | vOther => simp [visitNode, hk, getArg, hget]

/-- Witness for C8: `DELETE FROM orders WHERE id = '123'` — a string literal
with integer-parseable text — fails with ErrInvalidID. -/
theorem id_value_error_kinds_witness :
    resolve configsA (some (Stmt.delete ⟨"orders",
        some (SqlExpr.binary (SqlExpr.ident "id") BinOp.eq
          (SqlExpr.stringLit "123"))⟩)) []
      = RRes.fail QueryOut.original QueryOut.original "orders" Err.invalidID :=
  (id_value_error_kinds configsA cfgOrders "orders" []
    (SqlExpr.stringLit "123") rfl (by decide)).1 rfl

/-- The select branch of the pipeline never panics when every sharding-key or
id bind position in the condition is in bounds. -/
lemma selectResolve_no_panic {r : Config} {tn : String} {s : SelectStmt}
    {args : List Value}
    (hcb : condBindsOK r.shardingKey args.length s.condition = true) :
    selectResolve r tn s args ≠ Except.error Fail.panicked := by
  unfold selectResolve
  cases hniv : nonInsertValue r.shardingKey s.condition args with
  | error f =>
    cases f with
    | panicked => exact absurd hniv (nonInsertValue_no_panic hcb)
    | failed er => simp
  | ok viks =>
    obtain ⟨v, idv, kf⟩ := viks
    cases hgs : getSuffix v idv kf r with
    | error f =>
      cases f with
      | panicked => exact absurd hgs getSuffix_no_panic
      | failed er => simp [hgs]
    | ok suffix => simp [hgs]

/-- The update branch analogue of `selectResolve_no_panic`. -/
lemma updateResolve_no_panic {r : Config} {u : UpdateStmt} {args : List Value}
    (hcb : condBindsOK r.shardingKey args.length u.condition = true) :
    updateResolve r u args ≠ Except.error Fail.panicked := by
  unfold updateResolve
  cases hniv : nonInsertValue r.shardingKey u.condition args with
  | error f =>
    cases f with
    | panicked => exact absurd hniv (nonInsertValue_no_panic hcb)
    | failed er => simp
  | ok viks =>
    obtain ⟨v, idv, kf⟩ := viks
    cases hgs : getSuffix v idv kf r with
    | error f =>
      cases f with
      | panicked => exact absurd hgs getSuffix_no_panic
      | failed er => simp [hgs]
    | ok suffix => simp [hgs]

/-- The delete branch analogue of `selectResolve_no_panic`. -/
lemma deleteResolve_no_panic {r : Config} {d : DeleteStmt} {args : List Value}
    (hcb : condBindsOK r.shardingKey args.length d.condition = true) :
    deleteResolve r d args ≠ Except.error Fail.panicked := by
  unfold deleteResolve
  cases hniv : nonInsertValue r.shardingKey d.condition args with
  | error f =>
    cases f with
    | panicked => exact absurd hniv (nonInsertValue_no_panic hcb)
    | failed er => simp
  | ok viks =>
    obtain ⟨v, idv, kf⟩ := viks
    cases hgs : getSuffix v idv kf r with
    | error f =>
      cases f with
      | panicked => exact absurd hgs getSuffix_no_panic
      | failed er => simp [hgs]
    | ok suffix => simp [hgs]

/-- The insert branch never panics when the value-row list is nonempty and
each row's sharding-key bind position is in bounds. -/
lemma insertResolve_no_panic {r : Config} {i : InsertStmt} {args : List Value}
    (hne : i.expressions ≠ [])
    (hrows : ∀ row ∈ i.expressions,
      rowBindOK r.shardingKey args.length i.columnNames row = true) :
    insertResolve r i args ≠ Except.error Fail.panicked := by
  unfold insertResolve
  cases hexp : i.expressions with
  | nil => exact absurd hexp hne
  | cons row rest =>
    cases hl : insertLoop r i.columnNames args (row :: rest) "" i.columnNames [] with
    | error f =>
      cases f with
      | panicked =>
        refine absurd hl (insertLoop_no_panic (row :: rest) "" i.columnNames [] ?_)
        rw [hexp] at hrows
        exact hrows
      | failed er => simp [hl]
    | ok out =>
      obtain ⟨a, b, c, d⟩ := out
      simp [hl]

/-- Claim C10 (confirmed): for a statement on a registered table, whenever
every position at which the sharding-key or `id` column is bound to a
positional parameter is below the number of supplied arguments (and an
insert has at least one value row, as the parser guarantees), resolution
never hits an out-of-bounds argument access — it does not panic. -/
theorem resolve_no_panic_of_bounded_binds :
    ∀ (configs : Configs) (stmt : Stmt) (args : List Value) (tn : String)
      (r : Config),
      stmtTable stmt = some tn → configs.lookup tn = some r →
      (∀ i : InsertStmt, stmt = Stmt.insert i → i.expressions ≠ []) →
      stmtBindsOK r.shardingKey args.length stmt = true →
      resolve configs (some stmt) args ≠ RRes.panicked := by
  intro configs stmt args tn r htbl hr hwf hok h
  have hemp : configs.isEmpty = false := lookup_some_not_empty hr
  cases stmt with
  | select s =>
    rw [show stmtTable (Stmt.select s) = s.fromTable from rfl] at htbl
    by_cases hh : s.hint = some "nosharding"
    · unfold resolve at h
      simp [hemp, htbl, hh] at h
    · rw [resolve_select_eq htbl hh hr] at h
      exact wrapFail_ne_panicked (selectResolve_no_panic hok) h
  | insert i =>
    rw [show stmtTable (Stmt.insert i) = some i.tableName from rfl] at htbl
    simp only [Option.some.injEq] at htbl
    subst htbl
    rw [resolve_insert_eq hr] at h
    refine wrapFail_ne_panicked (insertResolve_no_panic (hwf i rfl) ?_) h
    intro row hrow
    rw [show stmtBindsOK r.shardingKey args.length (Stmt.insert i)
          = i.expressions.all
              (fun row => rowBindOK r.shardingKey args.length i.columnNames row)
        from rfl] at hok
    exact List.all_eq_true.mp hok row hrow
  | update u =>
    rw [show stmtTable (Stmt.update u) = some u.tableName from rfl] at htbl
    simp only [Option.some.injEq] at htbl
    subst htbl
    rw [resolve_update_eq hr] at h
    exact wrapFail_ne_panicked (updateResolve_no_panic hok) h
  | delete d =>
    rw [show stmtTable (Stmt.delete d) = some d.tableName from rfl] at htbl
    simp only [Option.some.injEq] at htbl
    subst htbl
    rw [resolve_delete_eq hr] at h
    exact wrapFail_ne_panicked (deleteResolve_no_panic hok) h
  | other => simp [stmtTable] at htbl

/-- Witness for C10: `DELETE FROM orders WHERE user_id = ?` with one supplied
argument and bind position 0 resolves without a panic. -/
theorem resolve_no_panic_of_bounded_binds_witness :
    resolve configsA (some stmtDelKeyBind) [Value.vInt64 5] ≠ RRes.panicked := by
  apply resolve_no_panic_of_bounded_binds configsA stmtDelKeyBind
    [Value.vInt64 5] "orders" cfgOrders rfl rfl
  · intro i hi
    simp [stmtDelKeyBind] at hi
  · decide

end GormSharding
